import Mathlib

/-!
Verification of `src/checksum-tool.py`: a content-integrity baseline tool.
The tool hashes every eligible file under a root directory (blake2b, adaptive
chunk size), persists the `(file_path, checksum)` records as a baseline, and on
a later run classifies every file into matched / changed / new / missing, with
a relocation pass that suppresses new/missing pairs sharing a digest.

The embedding below is a shallow model of the Python source:
* file contents are `List Nat` (byte sequences); the incremental blake2b
  accumulator is modelled by its stream semantics: updating with a chunk
  appends the chunk's bytes to the absorbed stream, and `hexdigest` is an
  arbitrary function of the absorbed stream (a parameter of the theorems);
* the JSON baseline document is a `List (String × String)` of
  `(file_path, checksum)` records in document order; the Python dict
  comprehension `{obj["file_path"]: obj["checksum"] for obj in ...}` is
  modelled by `stored_map` (later records overwrite earlier ones);
* the current scan is a `List (String × String)` of the `(path, digest)`
  results in the order the worker callbacks completed (the thread pool
  completes them in an arbitrary order, so order-sensitivity of the result
  is exactly sensitivity to scheduling);
* a fallible per-file hash is a function `String → Except String String`;
  a worker whose `compute_hash` raises contributes nothing to the shared
  lists (the exception is caught and printed in the `as_completed` loop).
-/

namespace ChecksumTool

/-- A `{"file": ..., "stored_checksum": ..., "current_checksum": ...}` record,
as appended to the `matched`, `changed` and `missing` lists. -/
structure Entry3 where
  file : String
  stored_checksum : String
  current_checksum : String
deriving DecidableEq, Repr

/-- A `{"file": ..., "current_checksum": ...}` record, as appended to `new`. -/
structure Entry2 where
  file : String
  current_checksum : String
deriving DecidableEq, Repr

/-- The five lists initialised at line 63 of the source
(`matched, changed, new, missing, relocated = [], [], [], [], []`).
The `removed` field is instrumentation standing in for the disabled
`relocated` bookkeeping: it records the `file` fields of the entries that
`delete_by_key_value` deletes from `new` and `missing` in the relocation
pass, in deletion order. -/
structure CState where
  matched : List Entry3
  changed : List Entry3
  new : List Entry2
  missing : List Entry3
  removed : List String
deriving DecidableEq, Repr

/-- The empty initial state. -/
def init_state : CState := ⟨[], [], [], [], []⟩

/-- The `stored_checksums` dict built from the loaded baseline records:
`{obj["file_path"]: obj["checksum"] for obj in stored_checksum_objs}`.
A Python dict comprehension keeps the LAST value for a duplicated key, so we
look the key up in the reversed record list. -/
def stored_map (baseline : List (String × String)) (p : String) : Option String :=
  (baseline.reverse).lookup p

/-- One `process_file` callback (lines 65-79) for a completed `(path, digest)`
result: `stored_checksums.get(file_path)` follows `if stored_checksum:` which
is Python truthiness, so a stored checksum `""` takes the `else` (new) branch
exactly like an absent key. -/
def process_file (sm : String → Option String) (s : CState) (pc : String × String) : CState :=
  match sm pc.1 with
  | some sc =>
      if sc ≠ "" then
        if pc.2 = sc then { s with matched := s.matched ++ [⟨pc.1, sc, pc.2⟩] }
        else { s with changed := s.changed ++ [⟨pc.1, sc, pc.2⟩] }
      else { s with new := s.new ++ [⟨pc.1, pc.2⟩] }
  | none => { s with new := s.new ++ [⟨pc.1, pc.2⟩] }

/-- `in_dictlist("file", v, l)` on an `Entry3` list (source lines 26-27),
returning the first entry whose `file` field equals `v`. -/
def in_dictlist_file3 (v : String) (l : List Entry3) : Option Entry3 :=
  l.find? (fun e => e.file == v)

/-- `in_dictlist("file", v, l)` on an `Entry2` list. -/
def in_dictlist_file2 (v : String) (l : List Entry2) : Option Entry2 :=
  l.find? (fun e => e.file == v)

/-- `in_dictlist("current_checksum", v, l)` on an `Entry3` list. -/
def in_dictlist_cur3 (v : String) (l : List Entry3) : Option Entry3 :=
  l.find? (fun e => e.current_checksum == v)

/-- `in_dictlist("current_checksum", v, l)` on an `Entry2` list. -/
def in_dictlist_cur2 (v : String) (l : List Entry2) : Option Entry2 :=
  l.find? (fun e => e.current_checksum == v)

/-- `delete_by_key_value("file", v, l)` (source lines 30-34): remove the first
entry whose `file` field equals `v`. -/
def delete_by_file3 (v : String) (l : List Entry3) : List Entry3 :=
  l.eraseP (fun e => e.file == v)

/-- `delete_by_key_value("file", v, l)` on an `Entry2` list. -/
def delete_by_file2 (v : String) (l : List Entry2) : List Entry2 :=
  l.eraseP (fun e => e.file == v)

/-- First block of the loop body at source lines 93-122: if the baseline
path is in none of `matched + changed + new`, append a `missing` record
whose `stored_checksum` and `current_checksum` are both the stored
checksum. -/
def missing_phase (s : CState) (pc : String × String) : CState :=
  if (in_dictlist_file3 pc.1 s.matched).isSome || (in_dictlist_file3 pc.1 s.changed).isSome
      || (in_dictlist_file2 pc.1 s.new).isSome then s
  else { s with missing := s.missing ++ [⟨pc.1, pc.2, pc.2⟩] }

/-- Second block of the loop body (lines 104-122): look for a `new` entry
and a `missing` entry whose `current_checksum` equals this record's
checksum, and if both exist delete them — the relocation pass. The deleted
files are logged in the `removed` ghost field. -/
def relocation_phase (s : CState) (pc : String × String) : CState :=
  match in_dictlist_cur2 pc.2 s.new, in_dictlist_cur3 pc.2 s.missing with
  | some ne, some me =>
      { s with
        new := delete_by_file2 ne.file s.new
        missing := delete_by_file3 me.file s.missing
        removed := s.removed ++ [ne.file, me.file] }
  | _, _ => s

/-- One iteration of the loop over `stored_checksum_objs` (source lines
93-122): the missing-append block followed by the relocation block. -/
def reconcile_step (s : CState) (pc : String × String) : CState :=
  relocation_phase (missing_phase s pc) pc

/-- `compare_checksums` (source lines 56-125), classification core: phase 1
folds the completed `(path, digest)` results through `process_file` (the
worker callbacks, in completion order); phase 2 folds the baseline records
through `reconcile_step`. The status file receives `changed`, `new` and
`missing`; `matched` stays in memory only. -/
def compare_checksums (baseline current : List (String × String)) : CState :=
  let s1 := current.foldl (process_file (stored_map baseline)) init_state
  baseline.foldl reconcile_step s1

/-- `compute_checksums` (source lines 146-165), with the per-file hash
abstracted as `hash : String → Except String String`: every successful
future contributes a `{"file_path": ..., "checksum": ...}` record, a future
that raised contributes nothing (the exception is caught and printed).
`as_completed` yields futures in a scheduler-dependent order; we model the
collection in submission order, and the order-insensitivity of what the
claims assert about the contents is part of what is proved. -/
def compute_checksums (hash : String → Except String String) (paths : List String) :
    List (String × String) :=
  paths.filterMap (fun p => match hash p with | .ok d => some (p, d) | .error _ => none)

/-- The per-file failures of a batch: the paths whose future raised, with the
exception message that the `except` branch prints (lines 159-160). -/
def compute_failures (hash : String → Except String String) (paths : List String) :
    List (String × String) :=
  paths.filterMap (fun p => match hash p with | .ok _ => none | .error e => some (p, e))

/-- A whole compare run (lines 56-125) over a list of filtered paths with a
fallible per-file hash: the `process_file` workers that raise are caught in
the `as_completed` loop and mutate nothing, so phase 1 sees exactly the
successful `(path, digest)` results. -/
def compare_run (hash : String → Except String String) (baseline : List (String × String))
    (paths : List String) : CState :=
  compare_checksums baseline (compute_checksums hash paths)

/-! ### Digest computer (`compute_hash`, source lines 37-53) -/

/-- `max_chunk_size = 16 * 1024` (source line 11). -/
def max_chunk_size : Nat := 16 * 1024

/-- The adaptive chunk size selected from the file size (lines 40-48):
1 MiB chunks above 16 MiB, 64 KiB chunks above 1 MiB, else the 16 KiB
default. -/
def adaptive_chunk_size (file_size : Nat) : Nat :=
  if file_size > 2 ^ 24 then 2 ^ 20
  else if file_size > 2 ^ 20 then 2 ^ 16
  else max_chunk_size

/-- The chunk sequence produced by `iter(lambda: file.read(k), b"")`
(line 50): repeatedly read `k` bytes until the read comes back empty. A read
of `k = 0` bytes returns `b""` immediately, ending the loop with no chunks. -/
def chunks (k : Nat) (content : List Nat) : List (List Nat) :=
  if content = [] ∨ k = 0 then []
  else content.take k :: chunks k (content.drop k)
termination_by content.length
decreasing_by
  rename_i h
  push_neg at h
  have h1 : 0 < k := Nat.pos_of_ne_zero h.2
  have h2 : content.length ≠ 0 := fun hl => h.1 (List.eq_nil_of_length_eq_zero hl)
  simp only [List.length_drop]
  omega

/-- Feeding a chunk sequence through the incremental hash accumulator
(`file_hash.update(chunk)` per chunk, then `hexdigest()`): the accumulator's
observable input is the concatenation of the absorbed chunks, and the final
hex digest is a function `f` of that absorbed byte stream. -/
def hash_stream (f : List Nat → String) (cs : List (List Nat)) : String :=
  f (cs.foldl (· ++ ·) [])

/-- `compute_hash` (lines 37-53): stream the file content through chunks of
the adaptively selected size and return the finalized digest. `f` is the
blake2b finalization (absorbed bytes to lowercase hex string). -/
def compute_hash (f : List Nat → String) (content : List Nat) : String :=
  hash_stream f (chunks (adaptive_chunk_size content.length) content)

/-! ### Path filter (`is_dir_ignored`, `filter_files`, source lines 9-23
and 128-143)

Directory paths are modelled as their component lists: `os.walk` on the
tool's target platform joins path components with the separator that
`is_dir_ignored` splits on, so splitting the joined path recovers exactly
the component list (directory names do not contain the separator). -/

/-- `checksum_list_file = "all-checksums.json"` (line 9). -/
def checksum_list_file : String := "all-checksums.json"

/-- `checksum_list_status_file = "status-checksums.json"` (line 10). -/
def checksum_list_status_file : String := "status-checksums.json"

/-- `os.path.basename(__file__)` (line 16). -/
def script_file_name : String := "checksum-tool.py"

/-- `ignored_dirs` (line 12). -/
def ignored_dirs : List String := ["$RECYCLE.BIN", ".git"]

/-- `ignored_file_names` (lines 13-17). -/
def ignored_file_names : List String :=
  [checksum_list_file, checksum_list_status_file, script_file_name]

/-- `is_dir_ignored` (lines 20-23): some component of the walked directory
path is one of the ignored directory names. -/
def is_dir_ignored (components : List String) : Bool :=
  components.any (fun c => ignored_dirs.contains c)

/-- A directory tree: the files directly in the directory, and the named
subdirectories. -/
inductive FSTree where
  | mk (files : List String) (subdirs : List (String × FSTree))

/-- `os.walk` from a starting path: yield `(dirpath, filenames)` for the
directory itself, then walk each subdirectory with its name appended to the
path. The source never prunes `dirs`, so subdirectories of an ignored
directory are still walked (their paths keep the ignored component). -/
def walk (path : List String) : FSTree → List (List String × List String)
  | .mk files subdirs =>
      (path, files) ::
        subdirs.attach.flatMap (fun st =>
          walk (path ++ [st.val.1]) st.val.2)
termination_by t => sizeOf t
decreasing_by
  obtain ⟨⟨name, t⟩, hmem⟩ := st
  have h := List.sizeOf_lt_of_mem hmem
  simp only [Prod.mk.sizeOf_spec] at h
  simp only [FSTree.mk.sizeOf_spec]
  omega

/-- `filter_files` (lines 128-143) applied to the walk output: skip ignored
directories wholesale, then skip ignored file names; yield the surviving
`(directory path, file name)` pairs (the source stores the joined
`os.path.join(root, file)` string). -/
def filter_files (entries : List (List String × List String)) :
    List (List String × String) :=
  entries.flatMap (fun e =>
    if is_dir_ignored e.1 then []
    else (e.2.filter (fun f => !ignored_file_names.contains f)).map (fun f => (e.1, f)))

/-! ### Module entry (source lines 168-203) -/

/-- The exit status of a bare `sys.exit()` call (lines 175 and 197): Python
exits with status 0 when `sys.exit` is given no argument. -/
def sys_exit_default_status : Nat := 0

/-- The exit status of the module entry (lines 168-203), absent unhandled
exceptions: if no baseline file exists, a non-`"y"` answer to the prompt
hits `sys.exit()` and a `"y"` answer generates the baseline and falls off
the end of the script; otherwise the `generate` branch ends in `sys.exit()`
and the `compare` branch falls off the end. Falling off the end of a script
also exits with status 0. -/
def program_exit_status (baseline_exists : Bool) (answer operation : String) : Nat :=
  if baseline_exists = false then
    if answer.toLower ≠ "y" then sys_exit_default_status
    else 0
  else
    if operation = "generate" then sys_exit_default_status
    else 0

/-! ### Derived notions used by the statements -/

/-- The `file_path` keys of a record list, in document order. -/
def keys (l : List (String × String)) : List String := l.map Prod.fst

/-- The `file` fields of an `Entry3` list. -/
def files3 (l : List Entry3) : List String := l.map Entry3.file

/-- The `file` fields of an `Entry2` list. -/
def files2 (l : List Entry2) : List String := l.map Entry2.file

/-- How many entries of an `Entry3` list carry `file = p`. -/
def count_file3 (p : String) (l : List Entry3) : Nat :=
  l.countP (fun e => e.file == p)

/-- How many entries of an `Entry2` list carry `file = p`. -/
def count_file2 (p : String) (l : List Entry2) : Nat :=
  l.countP (fun e => e.file == p)

/-- The total number of entries for path `p` across the four classification
lists of a state. -/
def total_count (p : String) (s : CState) : Nat :=
  count_file3 p s.matched + count_file3 p s.changed + count_file2 p s.new
    + count_file3 p s.missing

/-- In how many of the four classification lists path `p` appears. -/
def sets_containing (p : String) (s : CState) : Nat :=
  (if 0 < count_file3 p s.matched then 1 else 0)
    + (if 0 < count_file3 p s.changed then 1 else 0)
    + (if 0 < count_file2 p s.new then 1 else 0)
    + (if 0 < count_file3 p s.missing then 1 else 0)

/-- The entry that `process_file` appends to `matched` for a completed
`(path, digest)` result, if any. -/
def classify_matched (sm : String → Option String) (pc : String × String) : Option Entry3 :=
  match sm pc.1 with
  | some sc => if sc ≠ "" then (if pc.2 = sc then some ⟨pc.1, sc, pc.2⟩ else none) else none
  | none => none

/-- The entry that `process_file` appends to `changed`, if any. -/
def classify_changed (sm : String → Option String) (pc : String × String) : Option Entry3 :=
  match sm pc.1 with
  | some sc => if sc ≠ "" then (if pc.2 = sc then none else some ⟨pc.1, sc, pc.2⟩) else none
  | none => none

/-- The entry that `process_file` appends to `new`, if any. -/
def classify_new (sm : String → Option String) (pc : String × String) : Option Entry2 :=
  match sm pc.1 with
  | some sc => if sc ≠ "" then none else some ⟨pc.1, pc.2⟩
  | none => some ⟨pc.1, pc.2⟩

/-- The `matched` list at the end of phase 1 of `compare_checksums`. -/
def phase1_matched (baseline current : List (String × String)) : List Entry3 :=
  current.filterMap (classify_matched (stored_map baseline))

/-- The `changed` list at the end of phase 1 of `compare_checksums`. -/
def phase1_changed (baseline current : List (String × String)) : List Entry3 :=
  current.filterMap (classify_changed (stored_map baseline))

/-- The `new` list at the end of phase 1 of `compare_checksums`. -/
def phase1_new (baseline current : List (String × String)) : List Entry2 :=
  current.filterMap (classify_new (stored_map baseline))

/-! ### Phase 1: the worker callbacks only append, so the fold is a filterMap -/

theorem foldl_process_file (sm : String → Option String) (l : List (String × String)) :
    ∀ s : CState, l.foldl (process_file sm) s =
      { matched := s.matched ++ l.filterMap (classify_matched sm)
        changed := s.changed ++ l.filterMap (classify_changed sm)
        new := s.new ++ l.filterMap (classify_new sm)
        missing := s.missing
        removed := s.removed } := by
  induction l with
  | nil => intro s; simp
  | cons pc rest ih =>
    intro s
    rw [List.foldl_cons, ih]
    cases hsm : sm pc.1 with
    | none =>
      simp [process_file, classify_matched, classify_changed, classify_new, hsm]
    | some sc =>
      by_cases hsc : sc = ""
      · subst hsc
        simp [process_file, classify_matched, classify_changed, classify_new, hsm]
      · by_cases heq : pc.2 = sc
        · simp [process_file, classify_matched, classify_changed, classify_new, hsm, hsc, heq]
        · simp [process_file, classify_matched, classify_changed, classify_new, hsm, hsc, heq]

theorem compare_checksums_eq (baseline current : List (String × String)) :
    compare_checksums baseline current =
      baseline.foldl reconcile_step
        { matched := phase1_matched baseline current
          changed := phase1_changed baseline current
          new := phase1_new baseline current
          missing := []
          removed := [] } := by
  unfold compare_checksums
  rw [foldl_process_file]
  rfl

/-! ### Lookup lemmas for the stored-checksum dict -/

theorem lookup_cons_self {q d : String} {t : List (String × String)} :
    List.lookup q ((q, d) :: t) = some d := by
  simp [List.lookup]

theorem lookup_cons_ne {p q d : String} {t : List (String × String)} (h : p ≠ q) :
    List.lookup p ((q, d) :: t) = List.lookup p t := by
  simp only [List.lookup]
  rw [beq_eq_false_iff_ne.mpr h]

theorem lookup_eq_none_of_not_mem_keys {l : List (String × String)} {p : String}
    (h : p ∉ keys l) : l.lookup p = none := by
  induction l with
  | nil => rfl
  | cons qc t ih =>
    obtain ⟨q, c⟩ := qc
    have hq : p ≠ q := fun hpq => h (by simp [keys, hpq])
    have ht : p ∉ keys t := fun hm => h (by simp [keys] at hm ⊢; exact Or.inr hm)
    rw [lookup_cons_ne hq]
    exact ih ht

theorem lookup_eq_some_of_mem_nodup {l : List (String × String)} {p c : String}
    (hnd : (keys l).Nodup) (hmem : (p, c) ∈ l) : l.lookup p = some c := by
  induction l with
  | nil => cases hmem
  | cons qd t ih =>
    obtain ⟨q, d⟩ := qd
    simp only [keys, List.map_cons, List.nodup_cons] at hnd
    rcases List.mem_cons.mp hmem with hhd | htl
    · have h1 : p = q := congrArg Prod.fst hhd
      have h2 : c = d := congrArg Prod.snd hhd
      subst h1
      subst h2
      exact lookup_cons_self
    · have hpq : p ≠ q := by
        intro hpq
        subst hpq
        exact hnd.1 (List.mem_map.mpr ⟨(p, c), htl, rfl⟩)
      rw [lookup_cons_ne hpq]
      exact ih hnd.2 htl

theorem mem_of_lookup_eq_some {l : List (String × String)} {p c : String}
    (h : l.lookup p = some c) : (p, c) ∈ l := by
  induction l with
  | nil => cases h
  | cons qd t ih =>
    obtain ⟨q, d⟩ := qd
    by_cases hpq : p = q
    · subst hpq
      rw [lookup_cons_self] at h
      exact List.mem_cons.mpr (Or.inl (by injection h with h; rw [h]))
    · rw [lookup_cons_ne hpq] at h
      exact List.mem_cons.mpr (Or.inr (ih h))

theorem exists_lookup_of_mem_keys {l : List (String × String)} {p : String}
    (h : p ∈ keys l) : ∃ c, l.lookup p = some c := by
  induction l with
  | nil => simp [keys] at h
  | cons qd t ih =>
    obtain ⟨q, d⟩ := qd
    by_cases hpq : p = q
    · subst hpq
      exact ⟨d, lookup_cons_self⟩
    · have ht : p ∈ keys t := by
        simp only [keys, List.map_cons, List.mem_cons] at h
        exact h.resolve_left hpq
      obtain ⟨c, hc⟩ := ih ht
      exact ⟨c, by rw [lookup_cons_ne hpq]; exact hc⟩

theorem mem_of_stored_map_eq_some {baseline : List (String × String)} {p c : String}
    (h : stored_map baseline p = some c) : (p, c) ∈ baseline :=
  List.mem_reverse.mp (mem_of_lookup_eq_some h)

theorem stored_map_eq_some_of_mem_nodup {baseline : List (String × String)} {p c : String}
    (hnd : (keys baseline).Nodup) (hmem : (p, c) ∈ baseline) :
    stored_map baseline p = some c := by
  unfold stored_map
  have hnd' : (keys baseline.reverse).Nodup := by
    simpa [keys, List.map_reverse] using List.nodup_reverse.mpr hnd
  exact lookup_eq_some_of_mem_nodup hnd' (List.mem_reverse.mpr hmem)

theorem stored_map_eq_none_of_not_mem_keys {baseline : List (String × String)} {p : String}
    (h : p ∉ keys baseline) : stored_map baseline p = none := by
  unfold stored_map
  exact lookup_eq_none_of_not_mem_keys (by simpa [keys, List.map_reverse] using h)

theorem exists_stored_map_of_mem_keys {baseline : List (String × String)} {p : String}
    (h : p ∈ keys baseline) :
    ∃ c, stored_map baseline p = some c ∧ (p, c) ∈ baseline := by
  have h' : p ∈ keys baseline.reverse := by simpa [keys, List.map_reverse] using h
  obtain ⟨c, hc⟩ := exists_lookup_of_mem_keys h'
  exact ⟨c, hc, mem_of_stored_map_eq_some hc⟩

/-! ### Inversion lemmas for the phase-1 classifiers -/

theorem classify_matched_none_eq {sm : String → Option String} {pc : String × String}
    (hsm : sm pc.1 = none) : classify_matched sm pc = none := by
  unfold classify_matched
  rw [hsm]

theorem classify_matched_some_eq {sm : String → Option String} {pc : String × String}
    {sc : String} (hsm : sm pc.1 = some sc) :
    classify_matched sm pc =
      if sc ≠ "" then (if pc.2 = sc then some ⟨pc.1, sc, pc.2⟩ else none) else none := by
  unfold classify_matched
  rw [hsm]

theorem classify_changed_none_eq {sm : String → Option String} {pc : String × String}
    (hsm : sm pc.1 = none) : classify_changed sm pc = none := by
  unfold classify_changed
  rw [hsm]

theorem classify_changed_some_eq {sm : String → Option String} {pc : String × String}
    {sc : String} (hsm : sm pc.1 = some sc) :
    classify_changed sm pc =
      if sc ≠ "" then (if pc.2 = sc then none else some ⟨pc.1, sc, pc.2⟩) else none := by
  unfold classify_changed
  rw [hsm]

theorem classify_new_none_eq {sm : String → Option String} {pc : String × String}
    (hsm : sm pc.1 = none) : classify_new sm pc = some ⟨pc.1, pc.2⟩ := by
  unfold classify_new
  rw [hsm]

theorem classify_new_some_eq {sm : String → Option String} {pc : String × String}
    {sc : String} (hsm : sm pc.1 = some sc) :
    classify_new sm pc = if sc ≠ "" then none else some ⟨pc.1, pc.2⟩ := by
  unfold classify_new
  rw [hsm]

theorem classify_matched_some {sm : String → Option String} {pc : String × String} {e : Entry3}
    (h : classify_matched sm pc = some e) :
    e.file = pc.1 ∧ sm pc.1 = some e.stored_checksum ∧ e.stored_checksum ≠ ""
      ∧ e.current_checksum = pc.2 ∧ pc.2 = e.stored_checksum := by
  cases hsm : sm pc.1 with
  | none => rw [classify_matched_none_eq hsm] at h; cases h
  | some sc =>
    rw [classify_matched_some_eq hsm] at h
    by_cases hsc : sc = ""
    · rw [if_neg (fun hne => hne hsc)] at h; cases h
    · rw [if_pos hsc] at h
      by_cases heq : pc.2 = sc
      · rw [if_pos heq] at h
        injection h with h
        subst h
        exact ⟨rfl, rfl, hsc, rfl, heq⟩
      · rw [if_neg heq] at h
        cases h

theorem classify_changed_some {sm : String → Option String} {pc : String × String} {e : Entry3}
    (h : classify_changed sm pc = some e) :
    e.file = pc.1 ∧ sm pc.1 = some e.stored_checksum ∧ e.stored_checksum ≠ ""
      ∧ e.current_checksum = pc.2 ∧ pc.2 ≠ e.stored_checksum := by
  cases hsm : sm pc.1 with
  | none => rw [classify_changed_none_eq hsm] at h; cases h
  | some sc =>
    rw [classify_changed_some_eq hsm] at h
    by_cases hsc : sc = ""
    · rw [if_neg (fun hne => hne hsc)] at h; cases h
    · rw [if_pos hsc] at h
      by_cases heq : pc.2 = sc
      · rw [if_pos heq] at h
        cases h
      · rw [if_neg heq] at h
        injection h with h
        subst h
        exact ⟨rfl, rfl, hsc, rfl, heq⟩

theorem classify_new_some {sm : String → Option String} {pc : String × String} {e : Entry2}
    (h : classify_new sm pc = some e) :
    e.file = pc.1 ∧ e.current_checksum = pc.2 ∧ (sm pc.1 = none ∨ sm pc.1 = some "") := by
  cases hsm : sm pc.1 with
  | none =>
    rw [classify_new_none_eq hsm] at h
    injection h with h
    subst h
    exact ⟨rfl, rfl, Or.inl rfl⟩
  | some sc =>
    rw [classify_new_some_eq hsm] at h
    by_cases hsc : sc = ""
    · subst hsc
      rw [if_neg (fun hne => hne rfl)] at h
      injection h with h
      subst h
      exact ⟨rfl, rfl, Or.inr rfl⟩
    · rw [if_pos hsc] at h
      cases h

theorem classify_matched_of {sm : String → Option String} {pc : String × String} {sc : String}
    (hsm : sm pc.1 = some sc) (hsc : sc ≠ "") (heq : pc.2 = sc) :
    classify_matched sm pc = some ⟨pc.1, sc, pc.2⟩ := by
  unfold classify_matched
  rw [hsm]
  simp [hsc, heq]

theorem classify_changed_of {sm : String → Option String} {pc : String × String} {sc : String}
    (hsm : sm pc.1 = some sc) (hsc : sc ≠ "") (hne : pc.2 ≠ sc) :
    classify_changed sm pc = some ⟨pc.1, sc, pc.2⟩ := by
  unfold classify_changed
  rw [hsm]
  simp [hsc, hne]

theorem classify_new_of_none {sm : String → Option String} {pc : String × String}
    (hsm : sm pc.1 = none) : classify_new sm pc = some ⟨pc.1, pc.2⟩ := by
  unfold classify_new
  rw [hsm]

theorem classify_covers (sm : String → Option String) (pc : String × String) :
    (∃ e, classify_matched sm pc = some e) ∨ (∃ e, classify_changed sm pc = some e)
      ∨ (∃ e, classify_new sm pc = some e) := by
  unfold classify_matched classify_changed classify_new
  cases hsm : sm pc.1 with
  | none => exact Or.inr (Or.inr ⟨⟨pc.1, pc.2⟩, rfl⟩)
  | some sc =>
    by_cases hsc : sc = ""
    · exact Or.inr (Or.inr ⟨⟨pc.1, pc.2⟩, by simp [hsc]⟩)
    · by_cases heq : pc.2 = sc
      · exact Or.inl ⟨⟨pc.1, sc, pc.2⟩, by simp [hsc, heq]⟩
      · exact Or.inr (Or.inl ⟨⟨pc.1, sc, pc.2⟩, by simp [hsc, heq]⟩)

/-! ### File-field and counting lemmas -/

theorem mem_files3 {p : String} {l : List Entry3} :
    p ∈ files3 l ↔ ∃ e ∈ l, e.file = p := by
  simp [files3, List.mem_map]

theorem mem_files2 {p : String} {l : List Entry2} :
    p ∈ files2 l ↔ ∃ e ∈ l, e.file = p := by
  simp [files2, List.mem_map]

theorem files3_filterMap_sublist {F : String × String → Option Entry3}
    (hF : ∀ pc e, F pc = some e → e.file = pc.1) (l : List (String × String)) :
    List.Sublist (files3 (l.filterMap F)) (keys l) := by
  induction l with
  | nil => simp [files3, keys]
  | cons pc t ih =>
    simp only [List.filterMap_cons, keys, List.map_cons]
    cases hf : F pc with
    | none => exact ih.cons pc.1
    | some e =>
      simp only [files3, List.map_cons]
      rw [hF pc e hf]
      exact ih.cons₂ pc.1

theorem files2_filterMap_sublist {F : String × String → Option Entry2}
    (hF : ∀ pc e, F pc = some e → e.file = pc.1) (l : List (String × String)) :
    List.Sublist (files2 (l.filterMap F)) (keys l) := by
  induction l with
  | nil => simp [files2, keys]
  | cons pc t ih =>
    simp only [List.filterMap_cons, keys, List.map_cons]
    cases hf : F pc with
    | none => exact ih.cons pc.1
    | some e =>
      simp only [files2, List.map_cons]
      rw [hF pc e hf]
      exact ih.cons₂ pc.1

theorem count_file3_append (p : String) (l1 l2 : List Entry3) :
    count_file3 p (l1 ++ l2) = count_file3 p l1 + count_file3 p l2 :=
  List.countP_append _ _ _

theorem count_file2_append (p : String) (l1 l2 : List Entry2) :
    count_file2 p (l1 ++ l2) = count_file2 p l1 + count_file2 p l2 :=
  List.countP_append _ _ _

theorem count_file3_singleton (p : String) (e : Entry3) :
    count_file3 p [e] = if e.file = p then 1 else 0 := by
  by_cases h : e.file = p <;> simp [count_file3, List.countP_cons, h]

theorem count_file2_singleton (p : String) (e : Entry2) :
    count_file2 p [e] = if e.file = p then 1 else 0 := by
  by_cases h : e.file = p <;> simp [count_file2, List.countP_cons, h]

theorem count_file3_pos {p : String} {l : List Entry3} :
    0 < count_file3 p l ↔ p ∈ files3 l := by
  rw [count_file3, List.countP_pos, mem_files3]
  simp only [beq_iff_eq]

theorem count_file2_pos {p : String} {l : List Entry2} :
    0 < count_file2 p l ↔ p ∈ files2 l := by
  rw [count_file2, List.countP_pos, mem_files2]
  simp only [beq_iff_eq]

theorem count_file3_eq_zero {p : String} {l : List Entry3} :
    count_file3 p l = 0 ↔ p ∉ files3 l := by
  rw [← count_file3_pos]
  omega

theorem count_file2_eq_zero {p : String} {l : List Entry2} :
    count_file2 p l = 0 ↔ p ∉ files2 l := by
  rw [← count_file2_pos]
  omega

/-! ### Lemmas about `delete_by_key_value` (first-match deletion) -/

theorem delete_by_file3_sublist (v : String) (l : List Entry3) :
    List.Sublist (delete_by_file3 v l) l :=
  List.eraseP_sublist l

theorem delete_by_file2_sublist (v : String) (l : List Entry2) :
    List.Sublist (delete_by_file2 v l) l :=
  List.eraseP_sublist l

theorem count_file3_delete_ne {v p : String} (l : List Entry3) (hpv : p ≠ v) :
    count_file3 p (delete_by_file3 v l) = count_file3 p l := by
  induction l with
  | nil => rfl
  | cons e t ih =>
    rw [delete_by_file3, List.eraseP_cons]
    by_cases he : e.file = v
    · rw [beq_iff_eq.mpr he, cond_true]
      have hep : (e.file == p) = false := by
        rw [he]
        exact beq_eq_false_iff_ne.mpr (Ne.symm hpv)
      simp [count_file3, List.countP_cons, hep]
    · rw [beq_eq_false_iff_ne.mpr he, cond_false]
      have ht := ih
      rw [delete_by_file3] at ht
      simp only [count_file3, List.countP_cons] at ht ⊢
      omega

theorem count_file2_delete_ne {v p : String} (l : List Entry2) (hpv : p ≠ v) :
    count_file2 p (delete_by_file2 v l) = count_file2 p l := by
  induction l with
  | nil => rfl
  | cons e t ih =>
    rw [delete_by_file2, List.eraseP_cons]
    by_cases he : e.file = v
    · rw [beq_iff_eq.mpr he, cond_true]
      have hep : (e.file == p) = false := by
        rw [he]
        exact beq_eq_false_iff_ne.mpr (Ne.symm hpv)
      simp [count_file2, List.countP_cons, hep]
    · rw [beq_eq_false_iff_ne.mpr he, cond_false]
      have ht := ih
      rw [delete_by_file2] at ht
      simp only [count_file2, List.countP_cons] at ht ⊢
      omega

theorem count_file3_delete_self {p : String} {l : List Entry3} (h : p ∈ files3 l) :
    count_file3 p (delete_by_file3 p l) + 1 = count_file3 p l := by
  induction l with
  | nil => simp [files3] at h
  | cons e t ih =>
    rw [delete_by_file3, List.eraseP_cons]
    by_cases he : e.file = p
    · rw [beq_iff_eq.mpr he, cond_true]
      simp only [count_file3, List.countP_cons, beq_iff_eq.mpr he]
      simp
    · rw [beq_eq_false_iff_ne.mpr he, cond_false]
      have ht : p ∈ files3 t := by
        rcases mem_files3.mp h with ⟨e', he', hf⟩
        rcases List.mem_cons.mp he' with rfl | htl
        · exact absurd hf he
        · exact mem_files3.mpr ⟨e', htl, hf⟩
      have hstep := ih ht
      rw [delete_by_file3] at hstep
      simp only [count_file3, List.countP_cons] at hstep ⊢
      omega

theorem count_file2_delete_self {p : String} {l : List Entry2} (h : p ∈ files2 l) :
    count_file2 p (delete_by_file2 p l) + 1 = count_file2 p l := by
  induction l with
  | nil => simp [files2] at h
  | cons e t ih =>
    rw [delete_by_file2, List.eraseP_cons]
    by_cases he : e.file = p
    · rw [beq_iff_eq.mpr he, cond_true]
      simp only [count_file2, List.countP_cons, beq_iff_eq.mpr he]
      simp
    · rw [beq_eq_false_iff_ne.mpr he, cond_false]
      have ht : p ∈ files2 t := by
        rcases mem_files2.mp h with ⟨e', he', hf⟩
        rcases List.mem_cons.mp he' with rfl | htl
        · exact absurd hf he
        · exact mem_files2.mpr ⟨e', htl, hf⟩
      have hstep := ih ht
      rw [delete_by_file2] at hstep
      simp only [count_file2, List.countP_cons] at hstep ⊢
      omega

/-! ### Lemmas about `in_dictlist` (first-match search) -/

theorem in_dictlist_cur2_mem {v : String} {l : List Entry2} {ne : Entry2}
    (h : in_dictlist_cur2 v l = some ne) : ne ∈ l ∧ ne.current_checksum = v :=
  ⟨List.mem_of_find?_eq_some h, by
    have := List.find?_some h
    simpa [beq_iff_eq] using this⟩

theorem in_dictlist_cur3_mem {v : String} {l : List Entry3} {me : Entry3}
    (h : in_dictlist_cur3 v l = some me) : me ∈ l ∧ me.current_checksum = v :=
  ⟨List.mem_of_find?_eq_some h, by
    have := List.find?_some h
    simpa [beq_iff_eq] using this⟩

theorem in_dictlist_file3_isSome {v : String} {l : List Entry3} :
    (in_dictlist_file3 v l).isSome ↔ v ∈ files3 l := by
  rw [in_dictlist_file3, List.find?_isSome, mem_files3]
  simp only [beq_iff_eq]

theorem in_dictlist_file2_isSome {v : String} {l : List Entry2} :
    (in_dictlist_file2 v l).isSome ↔ v ∈ files2 l := by
  rw [in_dictlist_file2, List.find?_isSome, mem_files2]
  simp only [beq_iff_eq]

/-- The `current_checksum` fields of an `Entry2` list. -/
def curs2 (l : List Entry2) : List String := l.map Entry2.current_checksum

/-- The `current_checksum` fields of an `Entry3` list. -/
def curs3 (l : List Entry3) : List String := l.map Entry3.current_checksum

theorem in_dictlist_cur2_isSome {v : String} {l : List Entry2} :
    (in_dictlist_cur2 v l).isSome ↔ v ∈ curs2 l := by
  rw [in_dictlist_cur2, List.find?_isSome, curs2]
  simp [List.mem_map, beq_iff_eq]

theorem in_dictlist_cur3_isSome {v : String} {l : List Entry3} :
    (in_dictlist_cur3 v l).isSome ↔ v ∈ curs3 l := by
  rw [in_dictlist_cur3, List.find?_isSome, curs3]
  simp [List.mem_map, beq_iff_eq]

/-! ### Digest computer lemmas -/

theorem adaptive_chunk_size_pos (n : Nat) : 0 < adaptive_chunk_size n := by
  unfold adaptive_chunk_size max_chunk_size
  split_ifs <;> norm_num

theorem foldl_append_init (cs : List (List Nat)) :
    ∀ a : List Nat, cs.foldl (· ++ ·) a = a ++ cs.foldl (· ++ ·) [] := by
  induction cs with
  | nil => intro a; simp
  | cons c t ih =>
    intro a
    rw [List.foldl_cons, List.foldl_cons, ih (a ++ c), ih ([] ++ c)]
    simp [List.append_assoc]

theorem chunks_foldl_eq (k : Nat) (hk : 0 < k) :
    ∀ (n : Nat) (content : List Nat), content.length ≤ n →
      (chunks k content).foldl (· ++ ·) [] = content := by
  intro n
  induction n with
  | zero =>
    intro content hc
    have h0 : content = [] := List.eq_nil_of_length_eq_zero (Nat.le_zero.mp hc)
    subst h0
    rw [chunks]
    simp
  | succ n ih =>
    intro content hc
    rw [chunks]
    by_cases hc0 : content = []
    · rw [if_pos (Or.inl hc0)]
      simp [hc0]
    · have hcond : ¬(content = [] ∨ k = 0) := by
        push_neg
        exact ⟨hc0, Nat.pos_iff_ne_zero.mp hk⟩
      rw [if_neg hcond, List.foldl_cons, foldl_append_init]
      have hlen : (content.drop k).length ≤ n := by
        rw [List.length_drop]
        have hpos : 0 < content.length := List.length_pos.mpr hc0
        omega
      rw [ih (content.drop k) hlen]
      simp

/-- C6: the digest is independent of the read-chunk size. Streaming the
content through chunks of ANY positive size hands the accumulator the whole
content, so the digest equals the finalization of the full content; in
particular the adaptive chunk-size selection inside `compute_hash` never
changes the digest value. -/
theorem compute_hash_chunk_size_independent (f : List Nat → String)
    (content : List Nat) (k : Nat) (hk : 0 < k) :
    compute_hash f content = f content
      ∧ hash_stream f (chunks k content) = compute_hash f content := by
  have h1 : compute_hash f content = f content := by
    unfold compute_hash hash_stream
    rw [chunks_foldl_eq (adaptive_chunk_size content.length)
      (adaptive_chunk_size_pos content.length) content.length content (Nat.le_refl _)]
  refine ⟨h1, ?_⟩
  unfold hash_stream
  rw [chunks_foldl_eq k hk content.length content (Nat.le_refl _), h1]

/-- Witness for C6 at content `[1, 2, 3]` and forced chunk size 2. -/
theorem compute_hash_chunk_size_independent_witness :
    compute_hash (fun l => toString l.length) [1, 2, 3]
        = (fun l => toString l.length) [1, 2, 3]
      ∧ hash_stream (fun l => toString l.length) (chunks 2 [1, 2, 3])
        = compute_hash (fun l => toString l.length) [1, 2, 3] :=
  compute_hash_chunk_size_independent (fun l => toString l.length) [1, 2, 3] 2 (by decide)

/-! ### Parallel hashing coordinator lemmas -/

theorem compute_failures_eq_nil {hash : String → Except String String} {paths : List String}
    (h : ∀ q ∈ paths, (hash q).isOk) : compute_failures hash paths = [] := by
  induction paths with
  | nil => rfl
  | cons q t ih =>
    cases hq : hash q with
    | error e =>
      have := h q (List.mem_cons_self q t)
      rw [hq] at this
      cases this
    | ok d =>
      simp only [compute_failures, List.filterMap_cons, hq]
      exact ih (fun r hr => h r (List.mem_cons_of_mem q hr))

theorem compute_checksums_length_of_ok {hash : String → Except String String}
    {paths : List String} (h : ∀ q ∈ paths, (hash q).isOk) :
    (compute_checksums hash paths).length = paths.length := by
  induction paths with
  | nil => rfl
  | cons q t ih =>
    cases hq : hash q with
    | error e =>
      have := h q (List.mem_cons_self q t)
      rw [hq] at this
      cases this
    | ok d =>
      simp only [compute_checksums, List.filterMap_cons, hq, List.length_cons]
      have hih := ih (fun r hr => h r (List.mem_cons_of_mem q hr))
      simp only [compute_checksums] at hih
      omega

theorem mem_compute_checksums {hash : String → Except String String} {paths : List String}
    {q d : String} (hq : q ∈ paths) (hd : hash q = .ok d) :
    (q, d) ∈ compute_checksums hash paths :=
  List.mem_filterMap.mpr ⟨q, hq, by rw [hd]⟩

/-- C5: a single failing file among `N` does not abort the batch: the other
`N - 1` files all produce their records, and the failures list is exactly the
one failing path with its error. -/
theorem hashing_isolates_single_failure (hash : String → Except String String)
    (paths : List String) (p0 err : String)
    (hmem : p0 ∈ paths) (hnd : paths.Nodup) (hfail : hash p0 = .error err)
    (hok : ∀ q ∈ paths, q ≠ p0 → (hash q).isOk) :
    (compute_checksums hash paths).length + 1 = paths.length
      ∧ (∀ q d, q ∈ paths → hash q = .ok d → (q, d) ∈ compute_checksums hash paths)
      ∧ compute_failures hash paths = [(p0, err)] := by
  have haux : ∀ ps : List String, p0 ∈ ps → ps.Nodup →
      (∀ q ∈ ps, q ≠ p0 → (hash q).isOk) →
      (compute_checksums hash ps).length + 1 = ps.length
        ∧ compute_failures hash ps = [(p0, err)] := by
    intro ps
    induction ps with
    | nil => intro h; cases h
    | cons q t ih =>
      intro hm hn ho
      rcases List.mem_cons.mp hm with rfl | hmt
      · have hnotin : p0 ∉ t := (List.nodup_cons.mp hn).1
        have htok : ∀ r ∈ t, (hash r).isOk := fun r hr =>
          ho r (List.mem_cons_of_mem p0 hr) (fun hrp => hnotin (hrp ▸ hr))
        constructor
        · simp only [compute_checksums, List.filterMap_cons, hfail, List.length_cons]
          have := compute_checksums_length_of_ok htok
          simp only [compute_checksums] at this
          omega
        · simp only [compute_failures, List.filterMap_cons, hfail]
          have := compute_failures_eq_nil htok
          simp only [compute_failures] at this
          rw [this]
      · have hq0 : q ≠ p0 := fun h => (List.nodup_cons.mp hn).1 (h ▸ hmt)
        have hqok := ho q (List.mem_cons_self q t) hq0
        obtain ⟨d, hd⟩ : ∃ d, hash q = .ok d := by
          cases hq : hash q with
          | ok d => exact ⟨d, rfl⟩
          | error e => rw [hq] at hqok; cases hqok
        have iht := ih hmt (List.nodup_cons.mp hn).2
          (fun r hr hrp => ho r (List.mem_cons_of_mem q hr) hrp)
        constructor
        · simp only [compute_checksums, List.filterMap_cons, hd, List.length_cons]
          have := iht.1
          simp only [compute_checksums] at this
          omega
        · simp only [compute_failures, List.filterMap_cons, hd]
          exact iht.2
  exact ⟨(haux paths hmem hnd hok).1,
    fun q d hq hd => mem_compute_checksums hq hd,
    (haux paths hmem hnd hok).2⟩

/-- A concrete fallible hash for the C5 witness: path `"b"` fails with an
I/O error, every other path hashes successfully. -/
def one_failure_hash : String → Except String String :=
  fun p => if p = "b" then .error "io" else .ok ("h" ++ p)

/-- Witness for C5 on the batch `["a", "b", "c"]` with `"b"` failing. -/
theorem hashing_isolates_single_failure_witness :
    (compute_checksums one_failure_hash ["a", "b", "c"]).length + 1 = 3
      ∧ (∀ q d, q ∈ ["a", "b", "c"] → one_failure_hash q = .ok d →
          (q, d) ∈ compute_checksums one_failure_hash ["a", "b", "c"])
      ∧ compute_failures one_failure_hash ["a", "b", "c"] = [("b", "io")] :=
  hashing_isolates_single_failure one_failure_hash ["a", "b", "c"] "b" "io"
    (by decide) (by decide) (by rfl) (by decide)

/-! ### Path filter lemmas -/

/-- C8: nothing yielded by the path filter is an ignored file name or lies
under a directory whose walked path contains an ignored directory name. -/
theorem filter_files_walk_excludes (root : List String) (t : FSTree)
    (d : List String) (f : String)
    (h : (d, f) ∈ filter_files (walk root t)) :
    f ∉ ignored_file_names ∧ ∀ c ∈ d, c ∉ ignored_dirs := by
  unfold filter_files at h
  rw [List.mem_flatMap] at h
  obtain ⟨e, hmem, hin⟩ := h
  by_cases hig : is_dir_ignored e.1
  · rw [if_pos hig] at hin
    cases hin
  · rw [if_neg hig] at hin
    obtain ⟨f', hf', heq⟩ := List.mem_map.mp hin
    have hd : e.1 = d := congrArg Prod.fst heq
    have hff : f' = f := congrArg Prod.snd heq
    obtain ⟨hfmem, hfcond⟩ := List.mem_filter.mp hf'
    constructor
    · rw [← hff]
      intro hcontra
      simp only [Bool.not_eq_true'] at hfcond
      rw [List.contains_eq_any_beq] at hfcond
      have : ignored_file_names.any (f' == ·) = true :=
        List.any_eq_true.mpr ⟨f', hcontra, by simp⟩
      rw [this] at hfcond
      cases hfcond
    · intro c hc hcig
      apply hig
      unfold is_dir_ignored
      rw [hd]
      refine List.any_eq_true.mpr ⟨c, hc, ?_⟩
      rw [List.contains_eq_any_beq]
      exact List.any_eq_true.mpr ⟨c, hcig, by simp⟩

/-- Witness for C8: a one-directory tree whose only file survives the
filter, and the theorem's guarantees at it. -/
theorem filter_files_walk_excludes_witness :
    (["root"], "data.txt") ∈ filter_files (walk ["root"] (FSTree.mk ["data.txt"] []))
      ∧ ("data.txt" ∉ ignored_file_names ∧ ∀ c ∈ ["root"], c ∉ ignored_dirs) := by
  have hmem : (["root"], "data.txt")
      ∈ filter_files (walk ["root"] (FSTree.mk ["data.txt"] [])) := by
    rw [walk]
    simp [filter_files, is_dir_ignored, ignored_dirs, ignored_file_names,
      checksum_list_file, checksum_list_status_file, script_file_name]
  exact ⟨hmem, filter_files_walk_excludes ["root"] (FSTree.mk ["data.txt"] []) ["root"]
    "data.txt" hmem⟩

/-! ### Module entry lemmas -/

/-- C9 counterexample: with no baseline file present and the answer `"n"`
(a decline), the program exits with status 0, not a non-zero status, because
`sys.exit()` is called with no argument. -/
theorem program_exit_status_decline_is_zero :
    program_exit_status false "n" "compare" = 0 := by
  simp only [program_exit_status, sys_exit_default_status]
  split_ifs <;> rfl

/-- C9 amended: the program exits with status 0 on every path — on a
declined initial-baseline prompt it runs `sys.exit()` with no argument
(status 0), and every other path either ends in the same bare `sys.exit()`
or falls off the end of the script. -/
theorem program_exit_status_always_zero (b : Bool) (a o : String) :
    program_exit_status b a o = 0 := by
  cases b <;> simp only [program_exit_status, sys_exit_default_status] <;>
    split_ifs <;> rfl

/-! ### C2: relocation of a renamed file -/

/-- C2: a file whose content moved to a new path is consumed by the
relocation pass: with baseline `[(a, D1)]` and current `[(b, D1)]`, `a ≠ b`,
all four sets end empty (so `new` and `missing` are empty and `matched` has
no entry for `a` or `b`); and the spec's concrete scenario gives
`matched = [x.txt]` with `changed`, `new`, `missing` all empty. -/
theorem relocation_consumes_renamed_pair (a b D1 : String) (hab : a ≠ b) :
    ((compare_checksums [(a, D1)] [(b, D1)]).matched = []
      ∧ (compare_checksums [(a, D1)] [(b, D1)]).changed = []
      ∧ (compare_checksums [(a, D1)] [(b, D1)]).new = []
      ∧ (compare_checksums [(a, D1)] [(b, D1)]).missing = [])
    ∧ ((compare_checksums [("x.txt", "aaa"), ("y.txt", "bbb")]
          [("x.txt", "aaa"), ("z.txt", "bbb")]).matched = [⟨"x.txt", "aaa", "aaa"⟩]
      ∧ (compare_checksums [("x.txt", "aaa"), ("y.txt", "bbb")]
          [("x.txt", "aaa"), ("z.txt", "bbb")]).changed = []
      ∧ (compare_checksums [("x.txt", "aaa"), ("y.txt", "bbb")]
          [("x.txt", "aaa"), ("z.txt", "bbb")]).new = []
      ∧ (compare_checksums [("x.txt", "aaa"), ("y.txt", "bbb")]
          [("x.txt", "aaa"), ("z.txt", "bbb")]).missing = []) := by
  constructor
  · have hba : (b == a) = false := beq_eq_false_iff_ne.mpr (Ne.symm hab)
    have hsmb : stored_map [(a, D1)] b = none :=
      stored_map_eq_none_of_not_mem_keys (by simp [keys]; exact Ne.symm hab)
    rw [compare_checksums_eq]
    have hm1 : phase1_matched [(a, D1)] [(b, D1)] = [] := by
      simp [phase1_matched, @classify_matched_none_eq _ (b, D1) hsmb]
    have hc1 : phase1_changed [(a, D1)] [(b, D1)] = [] := by
      simp [phase1_changed, @classify_changed_none_eq _ (b, D1) hsmb]
    have hn1 : phase1_new [(a, D1)] [(b, D1)] = [⟨b, D1⟩] := by
      simp [phase1_new, @classify_new_none_eq _ (b, D1) hsmb]
    rw [hm1, hc1, hn1, List.foldl_cons, List.foldl_nil]
    simp [reconcile_step, missing_phase, relocation_phase, in_dictlist_file3,
      in_dictlist_file2, in_dictlist_cur2, in_dictlist_cur3, delete_by_file2,
      delete_by_file3, hba]
  · exact ⟨by decide, by decide, by decide, by decide⟩

/-- Witness for C2 at `a = "old.txt"`, `b = "new.txt"`, `D1 = "d"`. -/
theorem relocation_consumes_renamed_pair_witness :
    ((compare_checksums [("old.txt", "d")] [("new.txt", "d")]).matched = []
      ∧ (compare_checksums [("old.txt", "d")] [("new.txt", "d")]).changed = []
      ∧ (compare_checksums [("old.txt", "d")] [("new.txt", "d")]).new = []
      ∧ (compare_checksums [("old.txt", "d")] [("new.txt", "d")]).missing = [])
    ∧ ((compare_checksums [("x.txt", "aaa"), ("y.txt", "bbb")]
          [("x.txt", "aaa"), ("z.txt", "bbb")]).matched = [⟨"x.txt", "aaa", "aaa"⟩]
      ∧ (compare_checksums [("x.txt", "aaa"), ("y.txt", "bbb")]
          [("x.txt", "aaa"), ("z.txt", "bbb")]).changed = []
      ∧ (compare_checksums [("x.txt", "aaa"), ("y.txt", "bbb")]
          [("x.txt", "aaa"), ("z.txt", "bbb")]).new = []
      ∧ (compare_checksums [("x.txt", "aaa"), ("y.txt", "bbb")]
          [("x.txt", "aaa"), ("z.txt", "bbb")]).missing = []) :=
  relocation_consumes_renamed_pair "old.txt" "new.txt" "d" (by decide)

/-! ### C4: duplicate baseline paths -/

theorem lookup_append_of_none {p : String} {l1 l2 : List (String × String)}
    (h : List.lookup p l1 = none) :
    List.lookup p (l1 ++ l2) = List.lookup p l2 := by
  induction l1 with
  | nil => rfl
  | cons qd t ih =>
    obtain ⟨q, d⟩ := qd
    by_cases hpq : p = q
    · subst hpq
      rw [lookup_cons_self] at h
      cases h
    · rw [lookup_cons_ne hpq] at h
      rw [List.cons_append, lookup_cons_ne hpq]
      exact ih h

/-- C4 counterexample: a baseline with two records for path `"a"` is loaded
without any error and reconciliation proceeds normally — `compare_checksums`
classifies `"a"` as matched against the LAST record's checksum. There is no
`MalformedBaselineError` anywhere in the program. -/
theorem duplicate_baseline_loads_and_reconciles :
    (compare_checksums [("a", "x"), ("a", "y")] [("a", "y")]).matched = [⟨"a", "y", "y"⟩]
      ∧ (compare_checksums [("a", "x"), ("a", "y")] [("a", "y")]).changed = []
      ∧ (compare_checksums [("a", "x"), ("a", "y")] [("a", "y")]).new = []
      ∧ (compare_checksums [("a", "x"), ("a", "y")] [("a", "y")]).missing = []
      ∧ stored_map [("a", "x"), ("a", "y")] "a" = some "y" := by
  refine ⟨by decide, by decide, by decide, by decide, by decide⟩

/-- C4 amended: loading a baseline with duplicate `file_path` values never
fails; the stored-checksum dict silently keeps the LAST record's checksum
for each duplicated path (Python dict-comprehension semantics), and
reconciliation proceeds with that map. -/
theorem stored_map_duplicate_last_wins (pre mid post : List (String × String))
    (p c c' : String) (hpost : p ∉ keys post) :
    stored_map (pre ++ (p, c) :: mid ++ (p, c') :: post) p = some c' := by
  unfold stored_map
  have hrev : (pre ++ (p, c) :: mid ++ (p, c') :: post).reverse
      = post.reverse ++ (p, c') :: (mid.reverse ++ (p, c) :: pre.reverse) := by
    simp [List.reverse_append, List.reverse_cons, List.append_assoc]
  rw [hrev,
    lookup_append_of_none (lookup_eq_none_of_not_mem_keys
      (by simpa [keys, List.map_reverse] using hpost)),
    lookup_cons_self]

/-- Witness for the C4 amended theorem on the duplicate baseline
`[("a", "x"), ("a", "y")]`. -/
theorem stored_map_duplicate_last_wins_witness :
    stored_map [("a", "x"), ("a", "y")] "a" = some "y" :=
  stored_map_duplicate_last_wins [] [] [] "a" "x" "y" (by simp [keys])

/-! ### C7: reconciling an identical scan -/

theorem filterMap_congr_map {α β : Type} (F : α → Option β) (g : α → β) :
    ∀ l : List α, (∀ x ∈ l, F x = some (g x)) → l.filterMap F = l.map g := by
  intro l
  induction l with
  | nil => intro _; rfl
  | cons x t ih =>
    intro h
    rw [List.filterMap_cons, h x (List.mem_cons_self x t),
      List.map_cons, ih (fun y hy => h y (List.mem_cons_of_mem x hy))]

theorem foldl_fixed {α β : Type} (f : β → α → β) (s : β) :
    ∀ l : List α, (∀ x ∈ l, f s x = s) → l.foldl f s = s := by
  intro l
  induction l with
  | nil => intro _; rfl
  | cons x t ih =>
    intro h
    rw [List.foldl_cons, h x (List.mem_cons_self x t),
      ih (fun y hy => h y (List.mem_cons_of_mem x hy))]

/-- C7 amended: when the current scan is, up to completion order, exactly
the baseline's records (same paths, same digests), and no baseline checksum
is the empty string, reconciliation leaves `changed`, `new` and `missing`
empty and `matched` holds an entry for every baseline record. -/
theorem identical_scan_fully_matches (baseline current : List (String × String))
    (hperm : current.Perm baseline) (hnd : (keys baseline).Nodup)
    (hne : ∀ pc ∈ baseline, pc.2 ≠ "") :
    (compare_checksums baseline current).changed = []
      ∧ (compare_checksums baseline current).new = []
      ∧ (compare_checksums baseline current).missing = []
      ∧ ∀ pc ∈ baseline,
          (⟨pc.1, pc.2, pc.2⟩ : Entry3) ∈ (compare_checksums baseline current).matched := by
  rw [compare_checksums_eq]
  have hmap : phase1_matched baseline current
      = current.map (fun pc => (⟨pc.1, pc.2, pc.2⟩ : Entry3)) := by
    apply filterMap_congr_map
    intro pc hpc
    have hmem : pc ∈ baseline := hperm.subset hpc
    have hsm : stored_map baseline pc.1 = some pc.2 :=
      stored_map_eq_some_of_mem_nodup hnd hmem
    exact classify_matched_of hsm (hne pc hmem) rfl
  have hchan : phase1_changed baseline current = [] := by
    apply List.filterMap_eq_nil_iff.mpr
    intro pc hpc
    have hmem : pc ∈ baseline := hperm.subset hpc
    rw [classify_changed_some_eq (stored_map_eq_some_of_mem_nodup hnd hmem)]
    simp
  have hnew : phase1_new baseline current = [] := by
    apply List.filterMap_eq_nil_iff.mpr
    intro pc hpc
    have hmem : pc ∈ baseline := hperm.subset hpc
    rw [classify_new_some_eq (stored_map_eq_some_of_mem_nodup hnd hmem)]
    simp [hne pc hmem]
  rw [hmap, hchan, hnew]
  have hid : ∀ pc ∈ baseline,
      reconcile_step
        { matched := current.map (fun pc => (⟨pc.1, pc.2, pc.2⟩ : Entry3))
          changed := [], new := [], missing := [], removed := [] } pc
      = { matched := current.map (fun pc => (⟨pc.1, pc.2, pc.2⟩ : Entry3))
          changed := [], new := [], missing := [], removed := [] } := by
    intro pc hpc
    have hk : pc.1 ∈ keys current := by
      have hkp : List.Perm (keys current) (keys baseline) := hperm.map Prod.fst
      exact hkp.mem_iff.mpr (List.mem_map.mpr ⟨pc, hpc, rfl⟩)
    have hg : (in_dictlist_file3 pc.1
        (current.map (fun pc => (⟨pc.1, pc.2, pc.2⟩ : Entry3)))).isSome = true := by
      apply in_dictlist_file3_isSome.mpr
      obtain ⟨qc, hqc, hq1⟩ := List.mem_map.mp hk
      exact mem_files3.mpr ⟨⟨qc.1, qc.2, qc.2⟩, List.mem_map.mpr ⟨qc, hqc, rfl⟩, hq1⟩
    simp [reconcile_step, missing_phase, relocation_phase, hg, in_dictlist_cur2]
  rw [foldl_fixed _ _ baseline hid]
  refine ⟨rfl, rfl, rfl, ?_⟩
  intro pc hpc
  exact List.mem_map.mpr ⟨pc, hperm.symm.subset hpc, rfl⟩

/-- Witness for C7 on a two-record baseline scanned in the opposite order. -/
theorem identical_scan_fully_matches_witness :
    (compare_checksums [("x", "d1"), ("y", "d2")] [("y", "d2"), ("x", "d1")]).changed = []
      ∧ (compare_checksums [("x", "d1"), ("y", "d2")] [("y", "d2"), ("x", "d1")]).new = []
      ∧ (compare_checksums [("x", "d1"), ("y", "d2")] [("y", "d2"), ("x", "d1")]).missing = []
      ∧ ∀ pc ∈ [("x", "d1"), ("y", "d2")],
          (⟨pc.1, pc.2, pc.2⟩ : Entry3)
            ∈ (compare_checksums [("x", "d1"), ("y", "d2")] [("y", "d2"), ("x", "d1")]).matched :=
  identical_scan_fully_matches [("x", "d1"), ("y", "d2")] [("y", "d2"), ("x", "d1")]
    (by decide) (by decide) (by decide)

/-- C7 counterexample: with the (degenerate) stored checksum `""`, a scan
identical to the baseline is NOT fully matched — `if stored_checksum:` is
falsy for `""`, so the file is classified as new and never matched. -/
theorem identical_scan_empty_checksum_cex :
    (compare_checksums [("a", "")] [("a", "")]).new = [⟨"a", ""⟩]
      ∧ (compare_checksums [("a", "")] [("a", "")]).matched = [] := by
  exact ⟨by decide, by decide⟩

/-! ### Phase-1 structural facts feeding the reconciliation invariant -/

theorem files3_phase1_matched_subset {baseline current : List (String × String)} {p : String}
    (h : p ∈ files3 (phase1_matched baseline current)) : p ∈ keys current :=
  (files3_filterMap_sublist (fun _ _ he => (classify_matched_some he).1) current).subset h

theorem files3_phase1_changed_subset {baseline current : List (String × String)} {p : String}
    (h : p ∈ files3 (phase1_changed baseline current)) : p ∈ keys current :=
  (files3_filterMap_sublist (fun _ _ he => (classify_changed_some he).1) current).subset h

theorem files2_phase1_new_subset {baseline current : List (String × String)} {p : String}
    (h : p ∈ files2 (phase1_new baseline current)) : p ∈ keys current :=
  (files2_filterMap_sublist (fun _ _ he => (classify_new_some he).1) current).subset h

theorem files2_phase1_new_nodup {baseline current : List (String × String)}
    (hcn : (keys current).Nodup) : (files2 (phase1_new baseline current)).Nodup :=
  List.Nodup.sublist
    (files2_filterMap_sublist (fun _ _ he => (classify_new_some he).1) current) hcn

theorem files2_phase1_new_not_baseline {baseline current : List (String × String)}
    (hne : ∀ pc ∈ baseline, pc.2 ≠ "") {p : String}
    (h : p ∈ files2 (phase1_new baseline current)) : p ∉ keys baseline := by
  intro hpb
  obtain ⟨e, he, hef⟩ := mem_files2.mp h
  obtain ⟨pc, hpc, hcl⟩ := List.mem_filterMap.mp he
  obtain ⟨hf, _, hsm⟩ := classify_new_some hcl
  have hp1 : pc.1 = p := hf.symm.trans hef
  rw [hp1] at hsm
  obtain ⟨c, hc, hcmem⟩ := exists_stored_map_of_mem_keys hpb
  rcases hsm with h0 | h0
  · rw [h0] at hc
    cases hc
  · rw [h0] at hc
    injection hc with hc
    exact hne _ hcmem hc.symm

theorem mem_phase1_matched_or_changed {baseline current : List (String × String)}
    (hne : ∀ pc ∈ baseline, pc.2 ≠ "") {p : String}
    (hpc : p ∈ keys current) (hpb : p ∈ keys baseline) :
    p ∈ files3 (phase1_matched baseline current)
      ∨ p ∈ files3 (phase1_changed baseline current) := by
  obtain ⟨qc, hqc, hq1⟩ := List.mem_map.mp hpc
  obtain ⟨sc, hsm, hscmem⟩ := exists_stored_map_of_mem_keys hpb
  have hsc : sc ≠ "" := hne _ hscmem
  rw [← hq1] at hsm
  by_cases heq : qc.2 = sc
  · exact Or.inl (mem_files3.mpr ⟨⟨qc.1, sc, qc.2⟩,
      List.mem_filterMap.mpr ⟨qc, hqc, classify_matched_of hsm hsc heq⟩, hq1⟩)
  · exact Or.inr (mem_files3.mpr ⟨⟨qc.1, sc, qc.2⟩,
      List.mem_filterMap.mpr ⟨qc, hqc, classify_changed_of hsm hsc heq⟩, hq1⟩)

theorem phase1_total_count (baseline current : List (String × String)) (p : String) :
    count_file3 p (phase1_matched baseline current)
      + count_file3 p (phase1_changed baseline current)
      + count_file2 p (phase1_new baseline current)
      = (keys current).count p := by
  induction current with
  | nil =>
    simp [phase1_matched, phase1_changed, phase1_new, count_file3, count_file2, keys]
  | cons pc t ih =>
    have hkc : (keys (pc :: t)).count p
        = (keys t).count p + (if pc.1 = p then 1 else 0) := by
      by_cases hp : pc.1 = p <;>
        simp [keys, List.count_cons, hp]
    cases hsm : stored_map baseline pc.1 with
    | none =>
      simp only [phase1_matched, phase1_changed, phase1_new, List.filterMap_cons,
        classify_matched_none_eq hsm, classify_changed_none_eq hsm,
        classify_new_none_eq hsm] at ih ⊢
      rw [hkc]
      by_cases hp : pc.1 = p <;>
        simp only [count_file2, count_file3, List.countP_cons, hp, beq_self_eq_true,
          beq_iff_eq, if_true, if_false] at ih ⊢ <;>
        omega
    | some sc =>
      by_cases hsc : sc = ""
      · subst hsc
        have hn : classify_new (stored_map baseline) pc = some ⟨pc.1, pc.2⟩ := by
          rw [classify_new_some_eq hsm, if_neg (fun hc => hc rfl)]
        have hmm : classify_matched (stored_map baseline) pc = none := by
          rw [classify_matched_some_eq hsm, if_neg (fun hc => hc rfl)]
        have hcc : classify_changed (stored_map baseline) pc = none := by
          rw [classify_changed_some_eq hsm, if_neg (fun hc => hc rfl)]
        simp only [phase1_matched, phase1_changed, phase1_new, List.filterMap_cons,
          hn, hmm, hcc] at ih ⊢
        rw [hkc]
        by_cases hp : pc.1 = p <;>
          simp only [count_file2, count_file3, List.countP_cons, hp, beq_self_eq_true,
            beq_iff_eq, if_true, if_false] at ih ⊢ <;>
          omega
      · by_cases heq : pc.2 = sc
        · have hmm : classify_matched (stored_map baseline) pc = some ⟨pc.1, sc, pc.2⟩ :=
            classify_matched_of hsm hsc heq
          have hcc : classify_changed (stored_map baseline) pc = none := by
            rw [classify_changed_some_eq hsm, if_pos hsc, if_pos heq]
          have hn : classify_new (stored_map baseline) pc = none := by
            rw [classify_new_some_eq hsm, if_pos hsc]
          simp only [phase1_matched, phase1_changed, phase1_new, List.filterMap_cons,
            hn, hmm, hcc] at ih ⊢
          rw [hkc]
          by_cases hp : pc.1 = p <;>
            simp only [count_file2, count_file3, List.countP_cons, hp, beq_self_eq_true,
              beq_iff_eq, if_true, if_false] at ih ⊢ <;>
            omega
        · have hmm : classify_matched (stored_map baseline) pc = none := by
            rw [classify_matched_some_eq hsm, if_pos hsc, if_neg heq]
          have hcc : classify_changed (stored_map baseline) pc = some ⟨pc.1, sc, pc.2⟩ :=
            classify_changed_of hsm hsc heq
          have hn : classify_new (stored_map baseline) pc = none := by
            rw [classify_new_some_eq hsm, if_pos hsc]
          simp only [phase1_matched, phase1_changed, phase1_new, List.filterMap_cons,
            hn, hmm, hcc] at ih ⊢
          rw [hkc]
          by_cases hp : pc.1 = p <;>
            simp only [count_file2, count_file3, List.countP_cons, hp, beq_self_eq_true,
              beq_iff_eq, if_true, if_false] at ih ⊢ <;>
            omega

theorem if_beq_comm (a b : String) :
    (if (a == b) = true then 1 else 0) = (if b = a then (1 : Nat) else 0) := by
  by_cases h : b = a
  · subst h
    simp
  · rw [if_neg h, if_neg (fun hc => h (beq_iff_eq.mp hc).symm)]

theorem filter_singleton_of_pos {f : String → Bool} {a : String} (h : f a = true) :
    [a].filter f = [a] := by
  rw [List.filter_cons, h]
  rfl

theorem filter_singleton_of_neg {f : String → Bool} {a : String} (h : f a = false) :
    [a].filter f = [] := by
  rw [List.filter_cons, h]
  rfl

theorem contains_eq_true_iff {l : List String} {a : String} :
    l.contains a = true ↔ a ∈ l := by
  rw [List.contains_eq_any_beq]
  constructor
  · intro h
    obtain ⟨x, hx, hbeq⟩ := List.any_eq_true.mp h
    rw [show a = x from by simpa using hbeq]
    exact hx
  · intro h
    exact List.any_eq_true.mpr ⟨a, h, by simp⟩

/-- The invariant maintained over the phase-2 fold of `compare_checksums`
after the baseline records in `pre` have been processed: `matched` and
`changed` are exactly the phase-1 lists, `new` only ever shrinks, `missing`
holds paths of already-processed baseline records that are absent from the
scan, and the entry/ghost ledger balances every path's bookkeeping. -/
def reconcile_inv (baseline current pre : List (String × String)) (s : CState) : Prop :=
  s.matched = phase1_matched baseline current
    ∧ s.changed = phase1_changed baseline current
    ∧ List.Sublist s.new (phase1_new baseline current)
    ∧ (∀ e ∈ s.missing, e.file ∉ keys current ∧ e.file ∈ keys pre)
    ∧ (files3 s.missing).Nodup
    ∧ (∀ q ∈ s.removed, q ∈ keys pre ∨ q ∉ keys baseline)
    ∧ ∀ q, total_count q s + s.removed.count q
        = (keys current).count q
          + ((keys pre).filter (fun x => !(keys current).contains x)).count q

theorem reconcile_inv_init (baseline current : List (String × String)) :
    reconcile_inv baseline current []
      { matched := phase1_matched baseline current
        changed := phase1_changed baseline current
        new := phase1_new baseline current
        missing := []
        removed := [] } := by
  refine ⟨rfl, rfl, List.Sublist.refl _, ?_, ?_, ?_, ?_⟩
  · intro e he
    cases he
  · simp [files3]
  · intro q hq
    cases hq
  · intro q
    have hp1 := phase1_total_count baseline current q
    have h0 : ((keys ([] : List (String × String))).filter
        (fun x => !(keys current).contains x)).count q = 0 := rfl
    rw [h0]
    simp only [total_count]
    have hmiss0 : count_file3 q ([] : List Entry3) = 0 := rfl
    have hrem0 : List.count q ([] : List String) = 0 := rfl
    rw [hmiss0, hrem0]
    omega

theorem missing_phase_inv (baseline current pre rest' : List (String × String))
    (pc : String × String)
    (hbn : (keys baseline).Nodup) (hcn : (keys current).Nodup)
    (hne : ∀ x ∈ baseline, x.2 ≠ "")
    (hsplit : baseline = pre ++ pc :: rest')
    (s : CState) (hinv : reconcile_inv baseline current pre s) :
    reconcile_inv baseline current (pre ++ [pc]) (missing_phase s pc) := by
  obtain ⟨hm, hc, hnsub, hmiss, hmnd, hrem, hled⟩ := hinv
  have hpcb : pc ∈ baseline := by
    rw [hsplit]
    exact List.mem_append_right _ (List.mem_cons_self _ _)
  have hpc1b : pc.1 ∈ keys baseline := List.mem_map.mpr ⟨pc, hpcb, rfl⟩
  have hkeyssplit : keys baseline = keys pre ++ pc.1 :: keys rest' := by
    rw [hsplit]
    simp [keys]
  have hpc1pre : pc.1 ∉ keys pre := by
    intro hcontra
    rw [hkeyssplit] at hbn
    exact List.disjoint_of_nodup_append hbn hcontra (List.mem_cons_self _ _)
  have hkeyspre : keys (pre ++ [pc]) = keys pre ++ [pc.1] := by
    simp [keys]
  by_cases hkc : pc.1 ∈ keys current
  · -- the baseline path was scanned, so it is already in matched or changed
    have hguard : ((in_dictlist_file3 pc.1 s.matched).isSome
        || (in_dictlist_file3 pc.1 s.changed).isSome
        || (in_dictlist_file2 pc.1 s.new).isSome) = true := by
      rcases mem_phase1_matched_or_changed hne hkc hpc1b with h | h
      · have h1 : (in_dictlist_file3 pc.1 s.matched).isSome := by
          rw [hm]
          exact in_dictlist_file3_isSome.mpr h
        simp [h1]
      · have h1 : (in_dictlist_file3 pc.1 s.changed).isSome := by
          rw [hc]
          exact in_dictlist_file3_isSome.mpr h
        simp [h1]
    have hstep : missing_phase s pc = s := by
      unfold missing_phase
      rw [if_pos hguard]
    rw [hstep]
    refine ⟨hm, hc, hnsub, ?_, hmnd, ?_, ?_⟩
    · intro e he
      obtain ⟨h1, h2⟩ := hmiss e he
      exact ⟨h1, by rw [hkeyspre]; exact List.mem_append_left _ h2⟩
    · intro q hq
      rcases hrem q hq with h | h
      · exact Or.inl (by rw [hkeyspre]; exact List.mem_append_left _ h)
      · exact Or.inr h
    · intro q
      have hl := hled q
      have hcont : (keys current).contains pc.1 = true := contains_eq_true_iff.mpr hkc
      have hrhs : ((keys (pre ++ [pc])).filter (fun x => !(keys current).contains x)).count q
          = ((keys pre).filter (fun x => !(keys current).contains x)).count q := by
        rw [hkeyspre, List.filter_append]
        have hf1 : [pc.1].filter (fun x => !(keys current).contains x) = [] :=
          filter_singleton_of_neg (by rw [hcont]; rfl)
        rw [hf1, List.append_nil]
      rw [hrhs]
      exact hl
  · -- the baseline path is absent from the scan: a missing record is appended
    have hnm : pc.1 ∉ files3 s.matched := by
      rw [hm]
      intro h
      exact hkc (files3_phase1_matched_subset h)
    have hnc : pc.1 ∉ files3 s.changed := by
      rw [hc]
      intro h
      exact hkc (files3_phase1_changed_subset h)
    have hnn : pc.1 ∉ files2 s.new := by
      intro h
      exact hkc (files2_phase1_new_subset ((hnsub.map Entry2.file).subset h))
    have h1 : (in_dictlist_file3 pc.1 s.matched).isSome = false := by
      rw [← Bool.not_eq_true]
      exact fun hx => hnm (in_dictlist_file3_isSome.mp hx)
    have h2 : (in_dictlist_file3 pc.1 s.changed).isSome = false := by
      rw [← Bool.not_eq_true]
      exact fun hx => hnc (in_dictlist_file3_isSome.mp hx)
    have h3 : (in_dictlist_file2 pc.1 s.new).isSome = false := by
      rw [← Bool.not_eq_true]
      exact fun hx => hnn (in_dictlist_file2_isSome.mp hx)
    have hstep : missing_phase s pc
        = { s with missing := s.missing ++ [⟨pc.1, pc.2, pc.2⟩] } := by
      unfold missing_phase
      rw [h1, h2, h3]
      simp
    rw [hstep]
    refine ⟨hm, hc, hnsub, ?_, ?_, ?_, ?_⟩
    · intro e he
      rcases List.mem_append.mp he with h | h
      · obtain ⟨ha, hb⟩ := hmiss e h
        exact ⟨ha, by rw [hkeyspre]; exact List.mem_append_left _ hb⟩
      · rw [List.mem_singleton.mp h]
        exact ⟨hkc, by rw [hkeyspre]; exact List.mem_append_right _ (List.mem_singleton_self _)⟩
    · have hfe : files3 (s.missing ++ [⟨pc.1, pc.2, pc.2⟩]) = files3 s.missing ++ [pc.1] := by
        simp [files3]
      rw [hfe]
      refine List.Nodup.append hmnd (List.nodup_singleton _) ?_
      intro x hx hx1
      rw [List.mem_singleton.mp hx1] at hx
      obtain ⟨e, he, hef⟩ := mem_files3.mp hx
      exact hpc1pre (hef ▸ (hmiss e he).2)
    · intro q hq
      rcases hrem q hq with h | h
      · exact Or.inl (by rw [hkeyspre]; exact List.mem_append_left _ h)
      · exact Or.inr h
    · intro q
      have hl := hled q
      have hlhs : total_count q { s with missing := s.missing ++ [⟨pc.1, pc.2, pc.2⟩] }
          = total_count q s + (if pc.1 = q then 1 else 0) := by
        simp only [total_count, count_file3_append, count_file3_singleton]
        omega
      have hcont : (keys current).contains pc.1 = false := by
        rw [← Bool.not_eq_true]
        exact fun hx => hkc (contains_eq_true_iff.mp hx)
      have hrhs : ((keys (pre ++ [pc])).filter (fun x => !(keys current).contains x)).count q
          = ((keys pre).filter (fun x => !(keys current).contains x)).count q
            + (if pc.1 = q then 1 else 0) := by
        rw [hkeyspre, List.filter_append]
        have hf1 : [pc.1].filter (fun x => !(keys current).contains x) = [pc.1] :=
          filter_singleton_of_pos (by rw [hcont]; rfl)
        rw [hf1, List.count_append, List.count_singleton]
        by_cases hp : pc.1 = q <;> simp [hp]
      have hremproj :
          ({ s with missing := s.missing ++ [⟨pc.1, pc.2, pc.2⟩] } : CState).removed
            = s.removed := rfl
      rw [hlhs, hrhs, hremproj]
      omega

theorem relocation_phase_inv (baseline current pre : List (String × String))
    (pc : String × String)
    (hne : ∀ x ∈ baseline, x.2 ≠ "")
    (hpresub : ∀ q ∈ keys pre, q ∈ keys baseline)
    (s : CState) (hinv : reconcile_inv baseline current pre s) :
    reconcile_inv baseline current pre (relocation_phase s pc) := by
  obtain ⟨hm, hc, hnsub, hmiss, hmnd, hrem, hled⟩ := hinv
  cases hfne : in_dictlist_cur2 pc.2 s.new with
  | none =>
    have hid : relocation_phase s pc = s := by
      unfold relocation_phase
      rw [hfne]
    rw [hid]
    exact ⟨hm, hc, hnsub, hmiss, hmnd, hrem, hled⟩
  | some ne =>
    cases hme : in_dictlist_cur3 pc.2 s.missing with
    | none =>
      have hid : relocation_phase s pc = s := by
        unfold relocation_phase
        rw [hfne, hme]
      rw [hid]
      exact ⟨hm, hc, hnsub, hmiss, hmnd, hrem, hled⟩
    | some me =>
      have hstep : relocation_phase s pc
          = { s with
              new := delete_by_file2 ne.file s.new
              missing := delete_by_file3 me.file s.missing
              removed := s.removed ++ [ne.file, me.file] } := by
        unfold relocation_phase
        rw [hfne, hme]
      obtain ⟨hnemem, hnecur⟩ := in_dictlist_cur2_mem hfne
      obtain ⟨hmemem, hmecur⟩ := in_dictlist_cur3_mem hme
      have hnef2 : ne.file ∈ files2 s.new := mem_files2.mpr ⟨ne, hnemem, rfl⟩
      have hmef3 : me.file ∈ files3 s.missing := mem_files3.mpr ⟨me, hmemem, rfl⟩
      have hnen1 : ne.file ∈ files2 (phase1_new baseline current) :=
        (hnsub.map Entry2.file).subset hnef2
      have hnenb : ne.file ∉ keys baseline := files2_phase1_new_not_baseline hne hnen1
      have hmepre : me.file ∈ keys pre := (hmiss me hmemem).2
      have hneme : ne.file ≠ me.file := fun h => hnenb (hpresub _ (h ▸ hmepre))
      rw [hstep]
      refine ⟨hm, hc, ?_, ?_, ?_, ?_, ?_⟩
      · exact (delete_by_file2_sublist _ _).trans hnsub
      · intro e he
        exact hmiss e ((delete_by_file3_sublist _ _).subset he)
      · exact List.Nodup.sublist ((delete_by_file3_sublist me.file s.missing).map Entry3.file)
          hmnd
      · intro q hq
        rcases List.mem_append.mp hq with h | h
        · exact hrem q h
        · rcases List.mem_cons.mp h with rfl | h2
          · exact Or.inr hnenb
          · rw [List.mem_singleton.mp h2]
            exact Or.inl hmepre
      · intro q
        have hl := hled q
        have hremc : List.count q (s.removed ++ [ne.file, me.file])
            = List.count q s.removed
              + ((if q = ne.file then 1 else 0) + (if q = me.file then 1 else 0)) := by
          rw [List.count_append, List.count_cons, List.count_singleton,
            if_beq_comm, if_beq_comm]
          omega
        have hnew_eq : count_file2 q (delete_by_file2 ne.file s.new)
            + (if q = ne.file then 1 else 0) = count_file2 q s.new := by
          by_cases h1 : q = ne.file
          · rw [if_pos h1, h1]
            exact count_file2_delete_self (h1 ▸ hnef2)
          · rw [if_neg h1, count_file2_delete_ne s.new h1]
            omega
        have hmiss_eq : count_file3 q (delete_by_file3 me.file s.missing)
            + (if q = me.file then 1 else 0) = count_file3 q s.missing := by
          by_cases h2 : q = me.file
          · rw [if_pos h2, h2]
            exact count_file3_delete_self (h2 ▸ hmef3)
          · rw [if_neg h2, count_file3_delete_ne s.missing h2]
            omega
        simp only [total_count] at hl ⊢
        rw [hremc]
        omega

theorem reconcile_step_inv (baseline current pre rest' : List (String × String))
    (pc : String × String)
    (hbn : (keys baseline).Nodup) (hcn : (keys current).Nodup)
    (hne : ∀ x ∈ baseline, x.2 ≠ "")
    (hsplit : baseline = pre ++ pc :: rest')
    (s : CState) (hinv : reconcile_inv baseline current pre s) :
    reconcile_inv baseline current (pre ++ [pc]) (reconcile_step s pc) := by
  have hpresub : ∀ q ∈ keys (pre ++ [pc]), q ∈ keys baseline := by
    intro q hq
    have : keys (pre ++ [pc]) = keys pre ++ [pc.1] := by simp [keys]
    rw [this] at hq
    rcases List.mem_append.mp hq with h | h
    · rw [hsplit]
      have : keys (pre ++ pc :: rest') = keys pre ++ pc.1 :: keys rest' := by simp [keys]
      rw [this]
      exact List.mem_append_left _ h
    · rw [List.mem_singleton.mp h, hsplit]
      have : keys (pre ++ pc :: rest') = keys pre ++ pc.1 :: keys rest' := by simp [keys]
      rw [this]
      exact List.mem_append_right _ (List.mem_cons_self _ _)
  exact relocation_phase_inv baseline current (pre ++ [pc]) pc hne hpresub
    (missing_phase s pc)
    (missing_phase_inv baseline current pre rest' pc hbn hcn hne hsplit s hinv)

theorem reconcile_foldl_inv (baseline current : List (String × String))
    (hbn : (keys baseline).Nodup) (hcn : (keys current).Nodup)
    (hne : ∀ x ∈ baseline, x.2 ≠ "") :
    ∀ (rest pre : List (String × String)) (s : CState),
      baseline = pre ++ rest →
      reconcile_inv baseline current pre s →
      reconcile_inv baseline current baseline (rest.foldl reconcile_step s) := by
  intro rest
  induction rest with
  | nil =>
    intro pre s hsplit hinv
    rw [List.foldl_nil]
    rw [List.append_nil] at hsplit
    subst hsplit
    exact hinv
  | cons pc rest' ih =>
    intro pre s hsplit hinv
    rw [List.foldl_cons]
    apply ih (pre ++ [pc])
    · rw [hsplit]
      simp
    · exact reconcile_step_inv baseline current pre rest' pc hbn hcn hne hsplit s hinv

theorem sets_containing_eq_one_of_total {p : String} {s : CState}
    (h : total_count p s = 1) : sets_containing p s = 1 := by
  unfold total_count at h
  unfold sets_containing
  by_cases h1 : 0 < count_file3 p s.matched <;>
    by_cases h2 : 0 < count_file3 p s.changed <;>
    by_cases h3 : 0 < count_file2 p s.new <;>
    by_cases h4 : 0 < count_file3 p s.missing <;>
    simp only [h1, h2, h3, h4, if_true, if_false] <;>
    omega

theorem sets_containing_eq_zero_of_total {p : String} {s : CState}
    (h : total_count p s = 0) : sets_containing p s = 0 := by
  unfold total_count at h
  unfold sets_containing
  by_cases h1 : 0 < count_file3 p s.matched <;>
    by_cases h2 : 0 < count_file3 p s.changed <;>
    by_cases h3 : 0 < count_file2 p s.new <;>
    by_cases h4 : 0 < count_file3 p s.missing <;>
    simp only [h1, h2, h3, h4, if_true, if_false] <;>
    omega

/-- C1 amended: for a baseline with no duplicate paths and no empty-string
checksum, and a scan with no duplicate paths, every path of the baseline or
the scan either sits in exactly one of the four classification lists and was
never deleted by the relocation pass, or sits in none of them and was
deleted by the relocation pass. -/
theorem reconciliation_partitions_paths (baseline current : List (String × String))
    (hbn : (keys baseline).Nodup) (hcn : (keys current).Nodup)
    (hne : ∀ pc ∈ baseline, pc.2 ≠ "")
    (p : String) (hp : p ∈ keys baseline ∨ p ∈ keys current) :
    (sets_containing p (compare_checksums baseline current) = 1
        ∧ p ∉ (compare_checksums baseline current).removed)
      ∨ (sets_containing p (compare_checksums baseline current) = 0
        ∧ p ∈ (compare_checksums baseline current).removed) := by
  rw [compare_checksums_eq]
  have hinv := reconcile_foldl_inv baseline current hbn hcn hne baseline []
    { matched := phase1_matched baseline current
      changed := phase1_changed baseline current
      new := phase1_new baseline current
      missing := []
      removed := [] }
    (by simp) (reconcile_inv_init baseline current)
  obtain ⟨_, _, _, _, _, _, hled⟩ := hinv
  have hl := hled p
  have hRHS : (keys current).count p
      + ((keys baseline).filter (fun x => !(keys current).contains x)).count p = 1 := by
    by_cases hcb : p ∈ keys baseline <;> by_cases hcc : p ∈ keys current
    · have h1 : (keys current).count p = 1 := List.count_eq_one_of_mem hcn hcc
      have h2 : ((keys baseline).filter (fun x => !(keys current).contains x)).count p = 0 := by
        apply List.count_eq_zero.mpr
        intro hmemf
        have hx := (List.mem_filter.mp hmemf).2
        rw [contains_eq_true_iff.mpr hcc] at hx
        cases hx
      omega
    · have h1 : (keys current).count p = 0 := List.count_eq_zero.mpr hcc
      have hfn : ((keys baseline).filter (fun x => !(keys current).contains x)).Nodup :=
        List.Nodup.filter _ hbn
      have hcont : (keys current).contains p = false := by
        rw [← Bool.not_eq_true]
        exact fun hx => hcc (contains_eq_true_iff.mp hx)
      have hmf : p ∈ (keys baseline).filter (fun x => !(keys current).contains x) :=
        List.mem_filter.mpr ⟨hcb, by rw [hcont]; rfl⟩
      have h2 := List.count_eq_one_of_mem hfn hmf
      omega
    · have h1 : (keys current).count p = 1 := List.count_eq_one_of_mem hcn hcc
      have h2 : ((keys baseline).filter (fun x => !(keys current).contains x)).count p = 0 := by
        apply List.count_eq_zero.mpr
        intro hmemf
        exact hcb (List.mem_filter.mp hmemf).1
      omega
    · rcases hp with h | h
      · exact absurd h hcb
      · exact absurd h hcc
  rw [hRHS] at hl
  by_cases hprem : p ∈ (baseline.foldl reconcile_step
      { matched := phase1_matched baseline current
        changed := phase1_changed baseline current
        new := phase1_new baseline current
        missing := []
        removed := [] }).removed
  · right
    have hcp : 0 < List.count p (baseline.foldl reconcile_step
        { matched := phase1_matched baseline current
          changed := phase1_changed baseline current
          new := phase1_new baseline current
          missing := []
          removed := [] }).removed := List.count_pos_iff.mpr hprem
    have htz : total_count p (baseline.foldl reconcile_step
        { matched := phase1_matched baseline current
          changed := phase1_changed baseline current
          new := phase1_new baseline current
          missing := []
          removed := [] }) = 0 := by omega
    exact ⟨sets_containing_eq_zero_of_total htz, hprem⟩
  · left
    have hcp : List.count p (baseline.foldl reconcile_step
        { matched := phase1_matched baseline current
          changed := phase1_changed baseline current
          new := phase1_new baseline current
          missing := []
          removed := [] }).removed = 0 := List.count_eq_zero.mpr hprem
    have hto : total_count p (baseline.foldl reconcile_step
        { matched := phase1_matched baseline current
          changed := phase1_changed baseline current
          new := phase1_new baseline current
          missing := []
          removed := [] }) = 1 := by omega
    exact ⟨sets_containing_eq_one_of_total hto, hprem⟩

/-- Witness for the C1 theorem: baseline `[("a", "x")]`, scan `[("b", "y")]`,
at path `"a"`. -/
theorem reconciliation_partitions_paths_witness :
    (sets_containing "a" (compare_checksums [("a", "x")] [("b", "y")]) = 1
        ∧ "a" ∉ (compare_checksums [("a", "x")] [("b", "y")]).removed)
      ∨ (sets_containing "a" (compare_checksums [("a", "x")] [("b", "y")]) = 0
        ∧ "a" ∈ (compare_checksums [("a", "x")] [("b", "y")]).removed) :=
  reconciliation_partitions_paths [("a", "x")] [("b", "y")]
    (by decide) (by decide) (by decide) "a" (Or.inl (by decide))

/-- C1 counterexample: with baseline `[("a", "D"), ("p", "")]` and scan
`[("p", "D")]`, the relocation pass deletes path `"p"` from `new` (it is
logged in `removed`), yet `"p"` still appears in one of the four sets — the
loop later re-adds it to `missing` because the falsy stored checksum `""`
sent it to `new` instead of `matched`. So a relocation-removed path does
not always end up in none of the sets. -/
theorem relocation_removed_path_reappears_cex :
    "p" ∈ (compare_checksums [("a", "D"), ("p", "")] [("p", "D")]).removed
      ∧ sets_containing "p" (compare_checksums [("a", "D"), ("p", "")] [("p", "D")]) = 1
      ∧ (⟨"p", "", ""⟩ : Entry3)
          ∈ (compare_checksums [("a", "D"), ("p", "")] [("p", "D")]).missing := by
  exact ⟨by decide, by decide, by decide⟩

/-! ### C10: baseline paths whose hashing failed -/

theorem not_mem_keys_compute_checksums {hash : String → Except String String}
    {paths : List String} {p0 err : String} (hfail : hash p0 = .error err) :
    p0 ∉ keys (compute_checksums hash paths) := by
  intro h
  obtain ⟨⟨q, d⟩, hmem, hq⟩ := List.mem_map.mp h
  obtain ⟨r, hr, hrw⟩ := List.mem_filterMap.mp hmem
  cases hh : hash r with
  | ok d' =>
    rw [hh] at hrw
    injection hrw with hrw
    have hr1 : r = q := congrArg Prod.fst hrw
    have hq1 : q = p0 := hq
    rw [hr1, hq1, hfail] at hh
    cases hh
  | error e =>
    rw [hh] at hrw
    cases hrw

theorem mem_delete_by_file3_of_ne {e : Entry3} {l : List Entry3} {v : String}
    (hmem : e ∈ l) (hne : e.file ≠ v) : e ∈ delete_by_file3 v l := by
  induction l with
  | nil => cases hmem
  | cons a t ih =>
    rw [delete_by_file3, List.eraseP_cons]
    by_cases ha : a.file = v
    · rw [beq_iff_eq.mpr ha, cond_true]
      rcases List.mem_cons.mp hmem with rfl | h
      · exact absurd ha hne
      · exact h
    · rw [beq_eq_false_iff_ne.mpr ha, cond_false]
      rcases List.mem_cons.mp hmem with rfl | h
      · exact List.mem_cons_self _ _
      · exact List.mem_cons_of_mem _ (ih h)

/-- The facts tracked through phase 2 for C10: the phase-1 lists are fixed,
`new` only shrinks, `missing` holds only already-processed baseline paths,
and once the record `(p0, cs)` has been processed, its entry is in `missing`
unless the relocation pass deleted it (logging `p0` in `removed`). -/
def missing_tracking_inv (baseline current pre : List (String × String))
    (p0 cs : String) (s : CState) : Prop :=
  s.matched = phase1_matched baseline current
    ∧ s.changed = phase1_changed baseline current
    ∧ List.Sublist s.new (phase1_new baseline current)
    ∧ (∀ e ∈ s.missing, e.file ∈ keys pre)
    ∧ (files3 s.missing).Nodup
    ∧ ((p0, cs) ∈ pre → (⟨p0, cs, cs⟩ : Entry3) ∈ s.missing ∨ p0 ∈ s.removed)

theorem missing_phase_track (baseline current pre rest' : List (String × String))
    (pc : String × String) (p0 cs : String)
    (hbn : (keys baseline).Nodup) (hp0c : p0 ∉ keys current)
    (hsplit : baseline = pre ++ pc :: rest')
    (s : CState) (hinv : missing_tracking_inv baseline current pre p0 cs s) :
    missing_tracking_inv baseline current (pre ++ [pc]) p0 cs (missing_phase s pc) := by
  obtain ⟨hm, hc, hnsub, hmiss, hmnd, htrack⟩ := hinv
  have hkeyspre : keys (pre ++ [pc]) = keys pre ++ [pc.1] := by simp [keys]
  have hkeyssplit : keys baseline = keys pre ++ pc.1 :: keys rest' := by
    rw [hsplit]
    simp [keys]
  have hpc1pre : pc.1 ∉ keys pre := by
    intro hcontra
    rw [hkeyssplit] at hbn
    exact List.disjoint_of_nodup_append hbn hcontra (List.mem_cons_self _ _)
  by_cases hguard : ((in_dictlist_file3 pc.1 s.matched).isSome
      || (in_dictlist_file3 pc.1 s.changed).isSome
      || (in_dictlist_file2 pc.1 s.new).isSome) = true
  · have hstep : missing_phase s pc = s := by
      unfold missing_phase
      rw [if_pos hguard]
    rw [hstep]
    refine ⟨hm, hc, hnsub, ?_, hmnd, ?_⟩
    · intro e he
      rw [hkeyspre]
      exact List.mem_append_left _ (hmiss e he)
    · intro hp
      rcases List.mem_append.mp hp with h | h
      · exact htrack h
      · exfalso
        have hpc : (p0, cs) = pc := List.mem_singleton.mp h
        subst hpc
        simp only [Bool.or_eq_true] at hguard
        rcases hguard with (h1 | h2) | h3
        · have hx := in_dictlist_file3_isSome.mp h1
          rw [hm] at hx
          exact hp0c (files3_phase1_matched_subset hx)
        · have hx := in_dictlist_file3_isSome.mp h2
          rw [hc] at hx
          exact hp0c (files3_phase1_changed_subset hx)
        · have hx := in_dictlist_file2_isSome.mp h3
          exact hp0c (files2_phase1_new_subset ((hnsub.map Entry2.file).subset hx))
  · have hstep : missing_phase s pc
        = { s with missing := s.missing ++ [⟨pc.1, pc.2, pc.2⟩] } := by
      unfold missing_phase
      rw [if_neg hguard]
    rw [hstep]
    refine ⟨hm, hc, hnsub, ?_, ?_, ?_⟩
    · intro e he
      rw [hkeyspre]
      rcases List.mem_append.mp he with h | h
      · exact List.mem_append_left _ (hmiss e h)
      · rw [List.mem_singleton.mp h]
        exact List.mem_append_right _ (List.mem_singleton_self _)
    · have hfe : files3 (s.missing ++ [⟨pc.1, pc.2, pc.2⟩]) = files3 s.missing ++ [pc.1] := by
        simp [files3]
      rw [hfe]
      refine List.Nodup.append hmnd (List.nodup_singleton _) ?_
      intro x hx hx1
      rw [List.mem_singleton.mp hx1] at hx
      obtain ⟨e, he, hef⟩ := mem_files3.mp hx
      exact hpc1pre (hef ▸ hmiss e he)
    · intro hp
      rcases List.mem_append.mp hp with h | h
      · rcases htrack h with hin | hrem
        · exact Or.inl (List.mem_append_left _ hin)
        · exact Or.inr hrem
      · have hpc : (p0, cs) = pc := List.mem_singleton.mp h
        subst hpc
        exact Or.inl (List.mem_append_right _ (List.mem_singleton.mpr rfl))

theorem relocation_phase_track (baseline current pre : List (String × String))
    (pc : String × String) (p0 cs : String)
    (s : CState) (hinv : missing_tracking_inv baseline current pre p0 cs s) :
    missing_tracking_inv baseline current pre p0 cs (relocation_phase s pc) := by
  obtain ⟨hm, hc, hnsub, hmiss, hmnd, htrack⟩ := hinv
  cases hfne : in_dictlist_cur2 pc.2 s.new with
  | none =>
    have hid : relocation_phase s pc = s := by
      unfold relocation_phase
      rw [hfne]
    rw [hid]
    exact ⟨hm, hc, hnsub, hmiss, hmnd, htrack⟩
  | some ne =>
    cases hme : in_dictlist_cur3 pc.2 s.missing with
    | none =>
      have hid : relocation_phase s pc = s := by
        unfold relocation_phase
        rw [hfne, hme]
      rw [hid]
      exact ⟨hm, hc, hnsub, hmiss, hmnd, htrack⟩
    | some me =>
      have hstep : relocation_phase s pc
          = { s with
              new := delete_by_file2 ne.file s.new
              missing := delete_by_file3 me.file s.missing
              removed := s.removed ++ [ne.file, me.file] } := by
        unfold relocation_phase
        rw [hfne, hme]
      rw [hstep]
      refine ⟨hm, hc, (delete_by_file2_sublist _ _).trans hnsub, ?_, ?_, ?_⟩
      · intro e he
        exact hmiss e ((delete_by_file3_sublist _ _).subset he)
      · exact List.Nodup.sublist ((delete_by_file3_sublist me.file s.missing).map Entry3.file)
          hmnd
      · intro hp
        rcases htrack hp with hin | hrem
        · by_cases hq : me.file = p0
          · have hmem2 : p0 ∈ [ne.file, me.file] := by
              rw [← hq]
              exact List.mem_cons_of_mem _ (List.mem_singleton_self _)
            exact Or.inr (List.mem_append_right _ hmem2)
          · exact Or.inl (mem_delete_by_file3_of_ne hin (fun hx => hq (hx.symm)))
        · exact Or.inr (List.mem_append_left _ hrem)

theorem missing_track_foldl (baseline current : List (String × String))
    (p0 cs : String) (hbn : (keys baseline).Nodup) (hp0c : p0 ∉ keys current) :
    ∀ (rest pre : List (String × String)) (s : CState),
      baseline = pre ++ rest →
      missing_tracking_inv baseline current pre p0 cs s →
      missing_tracking_inv baseline current baseline p0 cs
        (rest.foldl reconcile_step s) := by
  intro rest
  induction rest with
  | nil =>
    intro pre s hsplit hinv
    rw [List.foldl_nil]
    rw [List.append_nil] at hsplit
    subst hsplit
    exact hinv
  | cons pc rest' ih =>
    intro pre s hsplit hinv
    rw [List.foldl_cons]
    apply ih (pre ++ [pc])
    · rw [hsplit]
      simp
    · exact relocation_phase_track baseline current (pre ++ [pc]) pc p0 cs
        (missing_phase s pc)
        (missing_phase_track baseline current pre rest' pc p0 cs hbn hp0c hsplit s hinv)

/-- C10 amended: during a compare run, a baseline path whose digest
computation raised ends up with its stored digest in `missing` UNLESS the
relocation pass deleted that missing entry (a new file carries the same
digest), in which case the path appears in no set; and a failing path
absent from the baseline appears in no set at all. -/
theorem failed_file_classification (hash : String → Except String String)
    (baseline : List (String × String)) (paths : List String) (p0 cs err : String)
    (hbn : (keys baseline).Nodup) (hmem : (p0, cs) ∈ baseline)
    (hfail : hash p0 = .error err) :
    ((⟨p0, cs, cs⟩ : Entry3) ∈ (compare_run hash baseline paths).missing
        ∨ p0 ∈ (compare_run hash baseline paths).removed)
      ∧ ∀ q e', q ∉ keys baseline → hash q = .error e' →
          sets_containing q (compare_run hash baseline paths) = 0 := by
  have hp0c : p0 ∉ keys (compute_checksums hash paths) :=
    not_mem_keys_compute_checksums hfail
  unfold compare_run
  rw [compare_checksums_eq]
  have hfold := missing_track_foldl baseline (compute_checksums hash paths) p0 cs hbn hp0c
    baseline []
    { matched := phase1_matched baseline (compute_checksums hash paths)
      changed := phase1_changed baseline (compute_checksums hash paths)
      new := phase1_new baseline (compute_checksums hash paths)
      missing := []
      removed := [] }
    (by simp)
    ⟨rfl, rfl, List.Sublist.refl _, fun e he => (by cases he), by simp [files3],
      fun hp => (by cases hp)⟩
  obtain ⟨hm, hc, hnsub, hmissb, hmnd, htrack⟩ := hfold
  refine ⟨htrack hmem, ?_⟩
  intro q e' hqb hqfail
  have hqc : q ∉ keys (compute_checksums hash paths) :=
    not_mem_keys_compute_checksums hqfail
  apply sets_containing_eq_zero_of_total
  unfold total_count
  have h1 : count_file3 q (baseline.foldl reconcile_step
      { matched := phase1_matched baseline (compute_checksums hash paths)
        changed := phase1_changed baseline (compute_checksums hash paths)
        new := phase1_new baseline (compute_checksums hash paths)
        missing := []
        removed := [] }).matched = 0 := by
    apply count_file3_eq_zero.mpr
    rw [hm]
    exact fun hx => hqc (files3_phase1_matched_subset hx)
  have h2 : count_file3 q (baseline.foldl reconcile_step
      { matched := phase1_matched baseline (compute_checksums hash paths)
        changed := phase1_changed baseline (compute_checksums hash paths)
        new := phase1_new baseline (compute_checksums hash paths)
        missing := []
        removed := [] }).changed = 0 := by
    apply count_file3_eq_zero.mpr
    rw [hc]
    exact fun hx => hqc (files3_phase1_changed_subset hx)
  have h3 : count_file2 q (baseline.foldl reconcile_step
      { matched := phase1_matched baseline (compute_checksums hash paths)
        changed := phase1_changed baseline (compute_checksums hash paths)
        new := phase1_new baseline (compute_checksums hash paths)
        missing := []
        removed := [] }).new = 0 := by
    apply count_file2_eq_zero.mpr
    exact fun hx => hqc (files2_phase1_new_subset ((hnsub.map Entry2.file).subset hx))
  have h4 : count_file3 q (baseline.foldl reconcile_step
      { matched := phase1_matched baseline (compute_checksums hash paths)
        changed := phase1_changed baseline (compute_checksums hash paths)
        new := phase1_new baseline (compute_checksums hash paths)
        missing := []
        removed := [] }).missing = 0 := by
    apply count_file3_eq_zero.mpr
    intro hx
    obtain ⟨e, he, hef⟩ := mem_files3.mp hx
    exact hqb (hef ▸ hmissb e he)
  rw [h1, h2, h3, h4]

/-- A fallible hash for the C10 witness: `"a"` raises, everything else
hashes to `"E"` (which collides with no stored digest). -/
def failing_hash_distinct : String → Except String String :=
  fun p => if p = "a" then .error "io" else .ok "E"

/-- A fallible hash for the C10 counterexample: `"a"` raises, everything
else hashes to `"D"` — the same digest the baseline stores for `"a"`. -/
def failing_hash_collide : String → Except String String :=
  fun p => if p = "a" then .error "io" else .ok "D"

/-- Witness for C10: baseline `[("a", "D")]`, paths `["a", "b"]` where
hashing `"a"` fails and `"b"` hashes to `"E"` (no relocation interference). -/
theorem failed_file_classification_witness :
    ((⟨"a", "D", "D"⟩ : Entry3)
        ∈ (compare_run failing_hash_distinct [("a", "D")] ["a", "b"]).missing
      ∨ "a" ∈ (compare_run failing_hash_distinct [("a", "D")] ["a", "b"]).removed)
      ∧ ∀ q e', q ∉ keys [("a", "D")]
          → failing_hash_distinct q = .error e'
          → sets_containing q
              (compare_run failing_hash_distinct [("a", "D")] ["a", "b"]) = 0 :=
  failed_file_classification failing_hash_distinct
    [("a", "D")] ["a", "b"] "a" "D" "io" (by decide) (by decide) (by rfl)

/-- C10 counterexample: baseline `[("a", "D")]`, scan of `["a", "b"]` where
hashing `"a"` raises and `"b"` hashes to the SAME digest `"D"`: the
relocation pass pairs the missing entry for `"a"` with the new entry for
`"b"` and deletes both, so the failing baseline path `"a"` is NOT in the
missing set — it appears in no set at all. -/
theorem failed_baseline_path_consumed_by_relocation_cex :
    (compare_run failing_hash_collide [("a", "D")] ["a", "b"]).missing = []
      ∧ sets_containing "a" (compare_run failing_hash_collide [("a", "D")] ["a", "b"]) = 0
      ∧ "a" ∈ (compare_run failing_hash_collide [("a", "D")] ["a", "b"]).removed := by
  exact ⟨by decide, by decide, by decide⟩

/-! ### C3: invariance under worker completion order -/

/-- The relation between the states of two compare runs over the same
baseline whose scans are permutations of each other: `matched` and `changed`
agree up to order, `missing` agrees exactly (it is driven by baseline
order), and the digest multiset of `new` agrees. -/
def run_rel (s s' : CState) : Prop :=
  s.matched.Perm s'.matched
    ∧ s.changed.Perm s'.changed
    ∧ s.missing = s'.missing
    ∧ (curs2 s.new).Perm (curs2 s'.new)

/-- Side facts about `new` needed for the order-invariance induction. -/
def new_side (baseline : List (String × String)) (s : CState) : Prop :=
  (files2 s.new).Nodup ∧ ∀ p ∈ s.new.map Entry2.file, p ∉ keys baseline

theorem curs2_delete_found {l : List Entry2} {v : String} {ne : Entry2}
    (hnd : (files2 l).Nodup) (hfind : in_dictlist_cur2 v l = some ne) :
    (curs2 l).Perm (v :: curs2 (delete_by_file2 ne.file l)) := by
  obtain ⟨hmem, hcur⟩ := in_dictlist_cur2_mem hfind
  obtain ⟨a', l₁, l₂, hnl, hpa, hdecomp, herase⟩ :=
    @List.exists_of_eraseP Entry2 (fun e => e.file == ne.file) l ne hmem
      (beq_self_eq_true ne.file)
  have hfa : a'.file = ne.file := beq_iff_eq.mp hpa
  have hnea : ne = a' := by
    have hmem2 := hmem
    rw [hdecomp] at hmem2
    rcases List.mem_append.mp hmem2 with h1 | h2
    · exact absurd (beq_self_eq_true ne.file) (hnl ne h1)
    · rcases List.mem_cons.mp h2 with heq | h3
      · exact heq
      · exfalso
        have hfiles : files2 l = files2 l₁ ++ a'.file :: files2 l₂ := by
          rw [hdecomp]
          simp [files2]
        rw [hfiles] at hnd
        have hh := (List.nodup_append.mp hnd).2.1
        have hnotin : a'.file ∉ files2 l₂ := (List.nodup_cons.mp hh).1
        exact hnotin (hfa ▸ mem_files2.mpr ⟨ne, h3, rfl⟩)
  subst hnea
  have hc : curs2 l = curs2 l₁ ++ ne.current_checksum :: curs2 l₂ := by
    rw [hdecomp]
    simp [curs2]
  have hd : curs2 (delete_by_file2 ne.file l) = curs2 l₁ ++ curs2 l₂ := by
    rw [show delete_by_file2 ne.file l = l.eraseP (fun e => e.file == ne.file) from rfl,
      herase]
    simp [curs2]
  rw [hc, hd, hcur]
  exact List.perm_middle

theorem missing_phase_rel (baseline : List (String × String)) (pc : String × String)
    (hpcb : pc ∈ baseline)
    (s s' : CState) (hrel : run_rel s s')
    (hside : new_side baseline s) (hside' : new_side baseline s') :
    run_rel (missing_phase s pc) (missing_phase s' pc)
      ∧ (missing_phase s pc).new = s.new ∧ (missing_phase s' pc).new = s'.new := by
  obtain ⟨hmm, hcc, hms, hnn⟩ := hrel
  have hk : pc.1 ∈ keys baseline := List.mem_map.mpr ⟨pc, hpcb, rfl⟩
  have h1 : (in_dictlist_file3 pc.1 s.matched).isSome
      = (in_dictlist_file3 pc.1 s'.matched).isSome := by
    by_cases h : pc.1 ∈ files3 s.matched
    · have hA := in_dictlist_file3_isSome.mpr h
      have hB := in_dictlist_file3_isSome.mpr ((hmm.map Entry3.file).mem_iff.mp h)
      rw [hA, hB]
    · have hA : (in_dictlist_file3 pc.1 s.matched).isSome = false := by
        rw [← Bool.not_eq_true]
        exact fun hx => h (in_dictlist_file3_isSome.mp hx)
      have hB : (in_dictlist_file3 pc.1 s'.matched).isSome = false := by
        rw [← Bool.not_eq_true]
        exact fun hx => h ((hmm.map Entry3.file).mem_iff.mpr (in_dictlist_file3_isSome.mp hx))
      rw [hA, hB]
  have h2 : (in_dictlist_file3 pc.1 s.changed).isSome
      = (in_dictlist_file3 pc.1 s'.changed).isSome := by
    by_cases h : pc.1 ∈ files3 s.changed
    · have hA := in_dictlist_file3_isSome.mpr h
      have hB := in_dictlist_file3_isSome.mpr ((hcc.map Entry3.file).mem_iff.mp h)
      rw [hA, hB]
    · have hA : (in_dictlist_file3 pc.1 s.changed).isSome = false := by
        rw [← Bool.not_eq_true]
        exact fun hx => h (in_dictlist_file3_isSome.mp hx)
      have hB : (in_dictlist_file3 pc.1 s'.changed).isSome = false := by
        rw [← Bool.not_eq_true]
        exact fun hx => h ((hcc.map Entry3.file).mem_iff.mpr (in_dictlist_file3_isSome.mp hx))
      rw [hA, hB]
  have h3 : (in_dictlist_file2 pc.1 s.new).isSome = false := by
    rw [← Bool.not_eq_true]
    exact fun hx => hside.2 pc.1 (in_dictlist_file2_isSome.mp hx) hk
  have h3' : (in_dictlist_file2 pc.1 s'.new).isSome = false := by
    rw [← Bool.not_eq_true]
    exact fun hx => hside'.2 pc.1 (in_dictlist_file2_isSome.mp hx) hk
  by_cases hg : ((in_dictlist_file3 pc.1 s.matched).isSome
      || (in_dictlist_file3 pc.1 s.changed).isSome
      || (in_dictlist_file2 pc.1 s.new).isSome) = true
  · have hg' : ((in_dictlist_file3 pc.1 s'.matched).isSome
        || (in_dictlist_file3 pc.1 s'.changed).isSome
        || (in_dictlist_file2 pc.1 s'.new).isSome) = true := by
      rw [← h1, ← h2, h3']
      rw [h3] at hg
      exact hg
    have e1 : missing_phase s pc = s := by
      unfold missing_phase
      rw [if_pos hg]
    have e2 : missing_phase s' pc = s' := by
      unfold missing_phase
      rw [if_pos hg']
    rw [e1, e2]
    exact ⟨⟨hmm, hcc, hms, hnn⟩, rfl, rfl⟩
  · have hg' : ¬ ((in_dictlist_file3 pc.1 s'.matched).isSome
        || (in_dictlist_file3 pc.1 s'.changed).isSome
        || (in_dictlist_file2 pc.1 s'.new).isSome) = true := by
      intro hx
      apply hg
      rw [h1, h2, h3]
      rw [h3'] at hx
      exact hx
    have e1 : missing_phase s pc = { s with missing := s.missing ++ [⟨pc.1, pc.2, pc.2⟩] } := by
      unfold missing_phase
      rw [if_neg hg]
    have e2 : missing_phase s' pc
        = { s' with missing := s'.missing ++ [⟨pc.1, pc.2, pc.2⟩] } := by
      unfold missing_phase
      rw [if_neg hg']
    rw [e1, e2]
    exact ⟨⟨hmm, hcc, by rw [hms], hnn⟩, rfl, rfl⟩

theorem relocation_phase_rel (baseline : List (String × String)) (pc : String × String)
    (s s' : CState) (hrel : run_rel s s')
    (hside : new_side baseline s) (hside' : new_side baseline s') :
    run_rel (relocation_phase s pc) (relocation_phase s' pc)
      ∧ new_side baseline (relocation_phase s pc)
      ∧ new_side baseline (relocation_phase s' pc) := by
  obtain ⟨hmm, hcc, hms, hnn⟩ := hrel
  obtain ⟨hnd, hnb⟩ := hside
  obtain ⟨hnd', hnb'⟩ := hside'
  cases hfne : in_dictlist_cur2 pc.2 s.new with
  | none =>
    have hfne' : in_dictlist_cur2 pc.2 s'.new = none := by
      cases hx : in_dictlist_cur2 pc.2 s'.new with
      | none => rfl
      | some ne' =>
        exfalso
        have hv : pc.2 ∈ curs2 s'.new := in_dictlist_cur2_isSome.mp (by rw [hx]; rfl)
        have hv2 : pc.2 ∈ curs2 s.new := hnn.mem_iff.mpr hv
        have hx2 := in_dictlist_cur2_isSome.mpr hv2
        rw [hfne] at hx2
        simp at hx2
    have e1 : relocation_phase s pc = s := by
      unfold relocation_phase
      rw [hfne]
    have e2 : relocation_phase s' pc = s' := by
      unfold relocation_phase
      rw [hfne']
    rw [e1, e2]
    exact ⟨⟨hmm, hcc, hms, hnn⟩, ⟨hnd, hnb⟩, ⟨hnd', hnb'⟩⟩
  | some ne =>
    obtain ⟨ne', hfne'⟩ : ∃ ne', in_dictlist_cur2 pc.2 s'.new = some ne' := by
      cases hx : in_dictlist_cur2 pc.2 s'.new with
      | some ne' => exact ⟨ne', rfl⟩
      | none =>
        exfalso
        have hv : pc.2 ∈ curs2 s.new := in_dictlist_cur2_isSome.mp (by rw [hfne]; rfl)
        have hv2 : pc.2 ∈ curs2 s'.new := hnn.mem_iff.mp hv
        have hx2 := in_dictlist_cur2_isSome.mpr hv2
        rw [hx] at hx2
        simp at hx2
    cases hme : in_dictlist_cur3 pc.2 s.missing with
    | none =>
      have hme' : in_dictlist_cur3 pc.2 s'.missing = none := by
        rw [← hms]
        exact hme
      have e1 : relocation_phase s pc = s := by
        unfold relocation_phase
        rw [hfne, hme]
      have e2 : relocation_phase s' pc = s' := by
        unfold relocation_phase
        rw [hfne', hme']
      rw [e1, e2]
      exact ⟨⟨hmm, hcc, hms, hnn⟩, ⟨hnd, hnb⟩, ⟨hnd', hnb'⟩⟩
    | some me =>
      have hme' : in_dictlist_cur3 pc.2 s'.missing = some me := by
        rw [← hms]
        exact hme
      have e1 : relocation_phase s pc
          = { s with
              new := delete_by_file2 ne.file s.new
              missing := delete_by_file3 me.file s.missing
              removed := s.removed ++ [ne.file, me.file] } := by
        unfold relocation_phase
        rw [hfne, hme]
      have e2 : relocation_phase s' pc
          = { s' with
              new := delete_by_file2 ne'.file s'.new
              missing := delete_by_file3 me.file s'.missing
              removed := s'.removed ++ [ne'.file, me.file] } := by
        unfold relocation_phase
        rw [hfne', hme']
      rw [e1, e2]
      have hA := curs2_delete_found hnd hfne
      have hB := curs2_delete_found hnd' hfne'
      have hnewrel : (curs2 (delete_by_file2 ne.file s.new)).Perm
          (curs2 (delete_by_file2 ne'.file s'.new)) :=
        List.Perm.cons_inv (hA.symm.trans (hnn.trans hB))
      refine ⟨⟨hmm, hcc, by rw [hms], hnewrel⟩, ⟨?_, ?_⟩, ⟨?_, ?_⟩⟩
      · exact List.Nodup.sublist ((delete_by_file2_sublist ne.file s.new).map Entry2.file)
          hnd
      · intro p hp
        exact hnb p (((delete_by_file2_sublist ne.file s.new).map Entry2.file).subset hp)
      · exact List.Nodup.sublist ((delete_by_file2_sublist ne'.file s'.new).map Entry2.file)
          hnd'
      · intro p hp
        exact hnb' p (((delete_by_file2_sublist ne'.file s'.new).map Entry2.file).subset hp)

theorem reconcile_foldl_rel (baseline : List (String × String)) :
    ∀ l : List (String × String), (∀ pc ∈ l, pc ∈ baseline) →
      ∀ s s' : CState, run_rel s s' → new_side baseline s → new_side baseline s' →
        run_rel (l.foldl reconcile_step s) (l.foldl reconcile_step s')
          ∧ new_side baseline (l.foldl reconcile_step s)
          ∧ new_side baseline (l.foldl reconcile_step s') := by
  intro l
  induction l with
  | nil =>
    intro _ s s' h1 h2 h3
    exact ⟨h1, h2, h3⟩
  | cons pc t ih =>
    intro hmem s s' h1 h2 h3
    rw [List.foldl_cons, List.foldl_cons]
    have hpcb := hmem pc (List.mem_cons_self _ _)
    have hstep1 := missing_phase_rel baseline pc hpcb s s' h1 h2 h3
    have hsideA : new_side baseline (missing_phase s pc) := by
      unfold new_side
      rw [hstep1.2.1]
      exact h2
    have hsideB : new_side baseline (missing_phase s' pc) := by
      unfold new_side
      rw [hstep1.2.2]
      exact h3
    have hstep2 := relocation_phase_rel baseline pc (missing_phase s pc)
      (missing_phase s' pc) hstep1.1 hsideA hsideB
    exact ih (fun q hq => hmem q (List.mem_cons_of_mem _ hq)) _ _
      hstep2.1 hstep2.2.1 hstep2.2.2

/-- C3 amended: for scans that are permutations of each other (any two
worker completion orders of the same path→digest results), with no
duplicate scan paths and no empty baseline checksum, the final `matched`
and `changed` lists agree up to order, `missing` agrees exactly, and the
digest multiset of `new` agrees — but which of several digest-sharing new
paths survives the relocation pass is order-dependent (see the
counterexample), so `new` itself need not agree as a set of paths. -/
theorem classification_completion_order_invariant
    (baseline current current' : List (String × String))
    (hperm : current.Perm current')
    (hcn : (keys current).Nodup)
    (hne : ∀ pc ∈ baseline, pc.2 ≠ "") :
    (compare_checksums baseline current).matched.Perm
        (compare_checksums baseline current').matched
      ∧ (compare_checksums baseline current).changed.Perm
        (compare_checksums baseline current').changed
      ∧ (compare_checksums baseline current).missing
        = (compare_checksums baseline current').missing
      ∧ (curs2 (compare_checksums baseline current).new).Perm
        (curs2 (compare_checksums baseline current').new) := by
  rw [compare_checksums_eq baseline current, compare_checksums_eq baseline current']
  have hcn' : (keys current').Nodup := ((hperm.map Prod.fst).nodup_iff).mp hcn
  have hrel0 : run_rel
      { matched := phase1_matched baseline current
        changed := phase1_changed baseline current
        new := phase1_new baseline current
        missing := []
        removed := [] }
      { matched := phase1_matched baseline current'
        changed := phase1_changed baseline current'
        new := phase1_new baseline current'
        missing := []
        removed := [] } := by
    refine ⟨hperm.filterMap _, hperm.filterMap _, rfl, ?_⟩
    exact (hperm.filterMap _).map _
  have hside0 : new_side baseline
      { matched := phase1_matched baseline current
        changed := phase1_changed baseline current
        new := phase1_new baseline current
        missing := []
        removed := [] } :=
    ⟨files2_phase1_new_nodup hcn, fun p hp => files2_phase1_new_not_baseline hne hp⟩
  have hside0' : new_side baseline
      { matched := phase1_matched baseline current'
        changed := phase1_changed baseline current'
        new := phase1_new baseline current'
        missing := []
        removed := [] } :=
    ⟨files2_phase1_new_nodup hcn', fun p hp => files2_phase1_new_not_baseline hne hp⟩
  have h := reconcile_foldl_rel baseline baseline (fun _ h => h) _ _ hrel0 hside0 hside0'
  exact ⟨h.1.1, h.1.2.1, h.1.2.2.1, h.1.2.2.2⟩

/-- Witness for C3 at baseline `[("y", "D")]` and the two completion orders
of the scan `{a ↦ D, b ↦ D}`. -/
theorem classification_completion_order_invariant_witness :
    (compare_checksums [("y", "D")] [("a", "D"), ("b", "D")]).matched.Perm
        (compare_checksums [("y", "D")] [("b", "D"), ("a", "D")]).matched
      ∧ (compare_checksums [("y", "D")] [("a", "D"), ("b", "D")]).changed.Perm
        (compare_checksums [("y", "D")] [("b", "D"), ("a", "D")]).changed
      ∧ (compare_checksums [("y", "D")] [("a", "D"), ("b", "D")]).missing
        = (compare_checksums [("y", "D")] [("b", "D"), ("a", "D")]).missing
      ∧ (curs2 (compare_checksums [("y", "D")] [("a", "D"), ("b", "D")]).new).Perm
        (curs2 (compare_checksums [("y", "D")] [("b", "D"), ("a", "D")]).new) :=
  classification_completion_order_invariant [("y", "D")]
    [("a", "D"), ("b", "D")] [("b", "D"), ("a", "D")]
    (by decide) (by decide) (by decide)

/-- C3 counterexample: with baseline `[("y", "D")]` and the same scan
results arriving in the two possible orders, the relocation tie-break
consumes whichever digest-`D` new entry comes first, so the surviving `new`
SET differs between the two completion orders: `{b}` for one order, `{a}`
for the other. The final classification is therefore not invariant under
completion order. -/
theorem relocation_tie_break_order_dependent_cex :
    [("a", "D"), ("b", "D")].Perm [("b", "D"), ("a", "D")]
      ∧ (⟨"b", "D"⟩ : Entry2)
          ∈ (compare_checksums [("y", "D")] [("a", "D"), ("b", "D")]).new
      ∧ (⟨"b", "D"⟩ : Entry2)
          ∉ (compare_checksums [("y", "D")] [("b", "D"), ("a", "D")]).new := by
  exact ⟨by decide, by decide, by decide⟩

end ChecksumTool
